import Mathlib

/-!
# Ecosystem simulation: a shallow embedding in Lean 4

This file embeds the population engine of the `ecosystem-simulation`
repository (trees / deer / wolves advancing in yearly ticks) and proves
properties of the embedded code.

Modeling conventions:

* JavaScript numbers are modeled as rationals (`ℚ`).  `Math.pow` with a
  non-integer exponent, `Math.sqrt` and `Math.exp` are irrational-valued
  and cannot be computed in `ℚ`; they are oracle parameters collected in
  the `JsMath` structure.  No theorem below depends on their values:
  every theorem quantifies over the oracle.
* `Math.random()` is modeled as consuming the head of an ambient stream
  of rationals (the "RNG sequence" of the spec); `Utils.randGauss` is an
  external collaborator (its source, `utils/helpers.js`, is not part of
  the core) and is modeled from the spec as a deterministic function of
  one stream draw.
* JavaScript arrays are modeled as `List`s; object identity of entities
  inside an array is modeled by the entity's index (every slot of a
  population array holds a separately constructed object, so object
  identity and slot index coincide).
* `Array.prototype.sort` with an inconsistent comparator has
  implementation-defined order in ECMAScript; we fix a deterministic
  stable insertion sort (`sortBy`) as the model of `sort`, reading the
  comparator `c` as "`a` stays before `b` iff `c a b ≤ 0`".  The
  random-comparator shuffle `sort(() => Math.random() - 0.5)` is modeled
  by the same insertion sort with each comparison consuming one draw.

The revisions embedded are the latest observed per component: the
TreeManager with death tracking, the DeerManager with death tracking and
cause-based kills, the WolfManager with death tracking, and the first
SimulationManager revision of `src/simulation/SimulationManager.js`.
-/

namespace EcoSim

/-- Oracle bundle for the real-valued `Math` functions that have no exact
rational meaning.  `pow x y` models `Math.pow(x, y)` for non-integer `y`,
`sqrt` models `Math.sqrt`, `exp` models `Math.exp`. -/
structure JsMath where
  pow : ℚ → ℚ → ℚ
  sqrt : ℚ → ℚ
  exp : ℚ → ℚ

/-- The ambient random stream: the sequence of values produced by
successive `Math.random()` calls. -/
abbrev Rng := List ℚ

/-- One `Math.random()` call: take the head of the stream. -/
def randNext (r : Rng) : ℚ × Rng := (r.headD 0, r.tail)

/-- Modelled from the spec: `RandomSource.gaussian(mean, stddev) → float`
(`Utils.randGauss` of `utils/helpers.js`, an out-of-scope collaborator).
It is modeled as a deterministic function of one stream draw. -/
def randGauss (mean sigma : ℚ) (r : Rng) : ℚ × Rng :=
  (mean + sigma * r.headD 0, r.tail)

/-- `Math.floor` on the rational model. -/
def jsFloor (q : ℚ) : ℤ := ⌊q⌋

/-- `Math.ceil` on the rational model. -/
def jsCeil (q : ℚ) : ℤ := ⌈q⌉

/-- `Math.round` on the rational model (round half up, as in JS). -/
def jsRound (q : ℚ) : ℤ := ⌊q + 1/2⌋

/-- `array[Math.floor(Math.random() * array.length)]` index selection.
For a draw `d ∈ [0,1)` this is exactly `⌊d·len⌋`; the `min` clamp only
matters for out-of-range draws, which `Math.random` never produces. -/
def pickIdx (len : ℕ) (d : ℚ) : ℕ := min (Int.toNat ⌊d * (len : ℚ)⌋) (len - 1)

/-- Insert `x` into `l`, placing it before the first `y` with `le x y`.
Together with `sortBy` this is our deterministic model of
`Array.prototype.sort`: `le a b` reads as "comparator(a,b) ≤ 0". -/
def insertBy (le : α → α → Bool) (x : α) : List α → List α
  | [] => [x]
  | y :: ys => if le x y then x :: y :: ys else y :: insertBy le x ys

/-- Stable insertion sort, the model of `Array.prototype.sort`. -/
def sortBy (le : α → α → Bool) : List α → List α
  | [] => []
  | x :: xs => insertBy le x (sortBy le xs)

theorem insertBy_perm (le : α → α → Bool) (x : α) (l : List α) :
    List.Perm (insertBy le x l) (x :: l) := by
  induction l with
  | nil => simp [insertBy]
  | cons y ys ih =>
    simp only [insertBy]
    by_cases h : le x y = true
    · simp [h]
    · simp only [h, if_false]
      exact ((ih.cons y).trans (List.Perm.swap x y ys))

theorem sortBy_perm (le : α → α → Bool) (l : List α) :
    List.Perm (sortBy le l) l := by
  induction l with
  | nil => simp [sortBy]
  | cons x xs ih =>
    exact (insertBy_perm le x (sortBy le xs)).trans (ih.cons x)

/-- Insertion step of the random-comparator shuffle: each comparison
`() => Math.random() - 0.5` consumes one draw, and the element goes in
front of the current head iff the draw is below `0.5`. -/
def shuffleIns (x : α) : List α → Rng → List α × Rng
  | [], r => ([x], r)
  | y :: ys, r =>
    let (d, r') := randNext r
    if d - 1/2 < 0 then (x :: y :: ys, r')
    else
      let (zs, r'') := shuffleIns x ys r'
      (y :: zs, r'')

/-- Model of `[...pool].sort(() => Math.random() - 0.5)`: a permutation
of the input determined by the random stream. -/
def jsShuffle : List α → Rng → List α × Rng
  | [], r => ([], r)
  | x :: xs, r =>
    let (s, r') := jsShuffle xs r
    shuffleIns x s r'

theorem shuffleIns_perm (x : α) (l : List α) (r : Rng) :
    List.Perm (shuffleIns x l r).1 (x :: l) := by
  induction l generalizing r with
  | nil => simp [shuffleIns]
  | cons y ys ih =>
    simp only [shuffleIns]
    split
    · exact List.Perm.refl _
    · exact (((ih (randNext r).2).cons y).trans (List.Perm.swap x y ys))

theorem jsShuffle_perm (l : List α) (r : Rng) :
    List.Perm (jsShuffle l r).1 l := by
  induction l generalizing r with
  | nil => simp [jsShuffle]
  | cons x xs ih =>
    simp only [jsShuffle]
    exact (shuffleIns_perm x _ _).trans ((ih _).cons x)

/-! ## Entities

Modelled from the spec (the `models/classes.js` file is not among the
sources): each entity is a record of its slot id and derived fields, and
"slot-id 0 ⇔ empty slot" (spec §3); `isAlive()` tests a non-zero id. -/

/-- A deer: slot id `nr` (0 = empty slot), age, mass, hunger, stamina. -/
structure Deer where
  nr : ℕ
  age : ℚ
  mass : ℚ
  hunger : ℚ
  stamina : ℚ
deriving Repr, DecidableEq

/-- `deer.isAlive()`: the slot id is non-zero. -/
def Deer.isAlive (d : Deer) : Bool := d.nr ≠ 0

/-- `new Deer(0, 0, 0, 0, 0)`, the empty slot. -/
def emptyDeer : Deer := ⟨0, 0, 0, 0, 0⟩

/-- A wolf: slot id `nr` (0 = empty slot), age, mass, hunger, stamina. -/
structure Wolf where
  nr : ℕ
  age : ℚ
  mass : ℚ
  hunger : ℚ
  stamina : ℚ
deriving Repr, DecidableEq

/-- `wolf.isAlive()`: the slot id is non-zero. -/
def Wolf.isAlive (w : Wolf) : Bool := w.nr ≠ 0

/-- `new Wolf(0, 0, 0, 0, 0)`, the empty slot. -/
def emptyWolf : Wolf := ⟨0, 0, 0, 0, 0⟩

/-- A tree: slot `position` (0 = empty), age, height, diameter, mass. -/
structure Tree where
  position : ℕ
  age : ℚ
  height : ℚ
  diameter : ℚ
  mass : ℚ
deriving Repr, DecidableEq

/-- A tree occupies its slot iff `position !== 0`. -/
def Tree.occupied (t : Tree) : Bool := t.position ≠ 0

/-- `new Tree(0, 0, 0, 0, 0)`, the empty slot. -/
def emptyTree : Tree := ⟨0, 0, 0, 0, 0⟩

/-! ## Manager states -/

/-- `DeerManager` state: the population array and the death counters. -/
structure DeerMgr where
  deers : List Deer
  ageDeath : ℕ
  starvationDeath : ℕ
  predationDeath : ℕ
  unknownDeath : ℕ
deriving Repr, DecidableEq

/-- `WolfManager` state: the population array and the death counters. -/
structure WolfMgr where
  wolves : List Wolf
  ageDeath : ℕ
  starvationDeath : ℕ
  unknownDeath : ℕ
deriving Repr, DecidableEq

/-- `TreeManager` state: the tree array, grid size, stabilization flag
and the death counters. -/
structure TreeMgr where
  trees : List Tree
  gridSize : ℕ
  isStabilizing : Bool
  consumedByDeer : ℕ
  initializationDeaths : ℕ
  simulationDeaths : ℕ
  stressDeaths : ℕ
  ageDeaths : ℕ
  concurrenceDeaths : ℕ
deriving Repr, DecidableEq

/-- `DeerManager.getPopulationCount()`. -/
def DeerMgr.getPopulationCount (m : DeerMgr) : ℕ :=
  (m.deers.filter Deer.isAlive).length

/-- `WolfManager.getPopulationCount()`. -/
def WolfMgr.getPopulationCount (m : WolfMgr) : ℕ :=
  (m.wolves.filter Wolf.isAlive).length

/-- `TreeManager.getPopulationCount()`. -/
def TreeMgr.getPopulationCount (m : TreeMgr) : ℕ :=
  (m.trees.filter Tree.occupied).length

/-! ## Killing entities -/

/-- `DeerManager.killDeer(index, cause)`: empty the slot if it is in
range and alive, and bump the counter matching `cause`. -/
def DeerMgr.killDeer (m : DeerMgr) (index : ℕ) (cause : String) : DeerMgr :=
  if index < m.deers.length ∧ (m.deers.getD index emptyDeer).isAlive then
    let m' := { m with deers := m.deers.set index emptyDeer }
    if cause = "age" then { m' with ageDeath := m.ageDeath + 1 }
    else if cause = "starvation" then { m' with starvationDeath := m.starvationDeath + 1 }
    else if cause = "predation" then { m' with predationDeath := m.predationDeath + 1 }
    else { m' with unknownDeath := m.unknownDeath + 1 }
  else m

/-- `WolfManager.killWolf(index, cause)`: empty the slot if it is in
range and alive, and bump the counter matching `cause`. -/
def WolfMgr.killWolf (m : WolfMgr) (index : ℕ) (cause : String) : WolfMgr :=
  if index < m.wolves.length ∧ (m.wolves.getD index emptyWolf).isAlive then
    let m' := { m with wolves := m.wolves.set index emptyWolf }
    if cause = "age" then { m' with ageDeath := m.ageDeath + 1 }
    else if cause = "starvation" then { m' with starvationDeath := m.starvationDeath + 1 }
    else { m' with unknownDeath := m.unknownDeath + 1 }
  else m

/-- `TreeManager.removeTree(index, cause)`: empty the slot if it is in
range and occupied; bump `simulationDeaths` and the matching counter. -/
def TreeMgr.removeTree (m : TreeMgr) (index : ℕ) (cause : String) : TreeMgr :=
  if index < m.trees.length ∧ (m.trees.getD index emptyTree).occupied then
    let m' := { m with trees := m.trees.set index emptyTree,
                       simulationDeaths := m.simulationDeaths + 1 }
    if cause = "stress" then { m' with stressDeaths := m.stressDeaths + 1 }
    else if cause = "age" then { m' with ageDeaths := m.ageDeaths + 1 }
    else if cause = "concurrence" then { m' with concurrenceDeaths := m.concurrenceDeaths + 1 }
    else m'
  else m

/-- `TreeManager.markAsConsumedByDeer(index)`: empty the slot if it is in
range and occupied, and bump the `consumedByDeer` counter. -/
def TreeMgr.markAsConsumedByDeer (m : TreeMgr) (index : ℕ) : TreeMgr :=
  if index < m.trees.length ∧ (m.trees.getD index emptyTree).occupied then
    { m with trees := m.trees.set index emptyTree,
             consumedByDeer := m.consumedByDeer + 1 }
  else m

/-! ## Stamina and tree-property formulas -/

/-- `DeerManager.calculateStamina(age, staminaFactor)` (revision with the
youth penalty).  `Math.pow((factor/5), 1.5)` is the oracle `jm.pow`;
`Math.pow(age - 4.5, 2)` is an exact square. -/
def deerCalculateStamina (jm : JsMath) (age staminaFactor : ℚ) : ℚ :=
  let normalizedFactor := min 10 (max 1 staminaFactor)
  let scaledFactor := jm.pow (normalizedFactor / 5) 1.5
  let baseCurve := max 0 (10 - (age - 4.5) ^ 2 / 2.5)
  let youthPenalty : ℚ := if age < 2 then 0.5 else 1
  min 10 (baseCurve * scaledFactor * youthPenalty)

/-- `WolfManager.calculateStamina(age, staminaFactor)` (death-tracking
revision). -/
def wolfCalculateStamina (jm : JsMath) (age staminaFactor : ℚ) : ℚ :=
  let normalizedFactor := min 10 (max 1 staminaFactor)
  let scaledFactor := jm.pow (normalizedFactor / 5) 1.5
  let baseCurve := max 0 (10 - (age - 4.5) ^ 2 / 2.5)
  min 10 (baseCurve * scaledFactor)

/-- `TreeManager.calculateTreeProperties(tree)`: derive diameter, height
and mass from the age.  `Math.pow(x, 2.0)` is an exact square; the mass
exponent `2.7133` is the oracle `jm.pow`. -/
def calculateTreeProperties (jm : JsMath) (t : Tree) : Tree :=
  let diameter := 0.01 * t.age
  let height := 1.3 + (diameter / (1.95 + 0.13 * diameter)) ^ 2
  let mass := 0.18 * jm.pow (100 * diameter) 2.7133
  { position := t.position, age := t.age, height, diameter, mass }

/-! ## Growth phases -/

/-- Body of `TreeManager.grow()`'s `map`: an occupied tree ages by one
year and its dimensions are recomputed; an empty slot is returned
unchanged. -/
def growTree (jm : JsMath) (t : Tree) : Tree :=
  if t.position = 0 then t
  else
    let age := t.age + 1
    let diameter := 0.01 * age
    let height := 1.3 + (diameter / (1.95 + 0.13 * diameter)) ^ 2
    let mass := 0.18 * jm.pow (100 * diameter) 2.7133
    { position := t.position, age, height, diameter, mass }

/-- `TreeManager.grow()`: grow every living tree (no randomness). -/
def TreeMgr.grow (jm : JsMath) (m : TreeMgr) : TreeMgr :=
  { m with trees := m.trees.map (growTree jm) }

/-- One `DeerManager.grow` update of a living deer. -/
def growDeerUpdate (jm : JsMath) (staminaFactor hunger : ℚ) (d : Deer) : Deer :=
  let age := d.age + 1
  { d with age,
           mass := if age > 4 then 28 else age * 7,
           hunger := if age > 4 then hunger else age * hunger / 4,
           stamina := deerCalculateStamina jm age staminaFactor }

/-- `DeerManager.grow(staminaFactor, hunger)` over the array: each living
deer is updated, and the 10%-sample debug log consumes one draw per
living deer. -/
def growDeerList (jm : JsMath) (staminaFactor hunger : ℚ) :
    List Deer → Rng → List Deer × Rng
  | [], r => ([], r)
  | d :: ds, r =>
    if d.isAlive then
      let d' := growDeerUpdate jm staminaFactor hunger d
      let (_, r') := randNext r
      let (ds', r'') := growDeerList jm staminaFactor hunger ds r'
      (d' :: ds', r'')
    else
      let (ds', r') := growDeerList jm staminaFactor hunger ds r
      (d :: ds', r')

/-- `DeerManager.grow(staminaFactor, hunger)`. -/
def DeerMgr.grow (jm : JsMath) (m : DeerMgr) (staminaFactor hunger : ℚ)
    (r : Rng) : DeerMgr × Rng :=
  let (ds, r') := growDeerList jm staminaFactor hunger m.deers r
  ({ m with deers := ds }, r')

/-- One `WolfManager.grow` update of a living wolf. -/
def growWolfUpdate (jm : JsMath) (staminaFactor hunger : ℚ) (w : Wolf) : Wolf :=
  let age := w.age + 1
  { w with age,
           mass := if age > 4 then 28 else age * 7,
           hunger := if age > 4 then hunger else age * hunger / 4,
           stamina := wolfCalculateStamina jm age staminaFactor }

/-- `WolfManager.grow(staminaFactor, hunger)` over the array: the
20%-sample debug log consumes one draw per living wolf. -/
def growWolfList (jm : JsMath) (staminaFactor hunger : ℚ) :
    List Wolf → Rng → List Wolf × Rng
  | [], r => ([], r)
  | w :: ws, r =>
    if w.isAlive then
      let w' := growWolfUpdate jm staminaFactor hunger w
      let (_, r') := randNext r
      let (ws', r'') := growWolfList jm staminaFactor hunger ws r'
      (w' :: ws', r'')
    else
      let (ws', r') := growWolfList jm staminaFactor hunger ws r
      (w :: ws', r')

/-- `WolfManager.grow(staminaFactor, hunger)`. -/
def WolfMgr.grow (jm : JsMath) (m : WolfMgr) (staminaFactor hunger : ℚ)
    (r : Rng) : WolfMgr × Rng :=
  let (ws, r') := growWolfList jm staminaFactor hunger m.wolves r
  ({ m with wolves := ws }, r')

/-! ## Statistics -/

/-- Increment the count stored under key `k` in a JS-object-like
association list (insertion order preserved, as in a JS object). -/
def bumpKey (k : ℤ) : List (ℤ × ℕ) → List (ℤ × ℕ)
  | [] => [(k, 1)]
  | (k', n) :: rest => if k = k' then (k', n + 1) :: rest else (k', n) :: bumpKey k rest

/-- Age brackets of `TreeManager.getAgeDistribution()`. -/
structure TreeAgeDist where
  seedling : ℕ
  young : ℕ
  mature : ℕ
  old : ℕ
  ancient : ℕ
deriving Repr, DecidableEq

/-- Classify one living tree into its bracket. -/
def treeAgeBump (dist : TreeAgeDist) (t : Tree) : TreeAgeDist :=
  if t.age ≤ 2 then { dist with seedling := dist.seedling + 1 }
  else if t.age ≤ 10 then { dist with young := dist.young + 1 }
  else if t.age ≤ 50 then { dist with mature := dist.mature + 1 }
  else if t.age ≤ 100 then { dist with old := dist.old + 1 }
  else { dist with ancient := dist.ancient + 1 }

/-- `TreeManager.getAgeDistribution()`. -/
def TreeMgr.getAgeDistribution (m : TreeMgr) : TreeAgeDist :=
  (m.trees.filter Tree.occupied).foldl treeAgeBump ⟨0, 0, 0, 0, 0⟩

/-- The statistics object built by `TreeManager.getStatistics()`. -/
structure TreeStats where
  total : ℕ
  averageAge : ℚ
  deaths : ℕ
  stressDeaths : ℕ
  ageDeaths : ℕ
  concurrenceDeaths : ℕ
  consumedByDeer : ℕ
  totalDeaths : ℕ
  youngTrees : ℕ
  averageHeight : ℚ
  ageDistribution : TreeAgeDist
deriving Repr, DecidableEq

/-- `TreeManager.getStatistics()`.  It builds the statistics object and
then resets the `consumedByDeer` counter for the next cycle; the updated
manager state is returned alongside the statistics. -/
def TreeMgr.getStatistics (m : TreeMgr) : TreeStats × TreeMgr :=
  let aliveTrees := m.trees.filter Tree.occupied
  let youngTrees := (aliveTrees.filter (fun t => t.age ≤ 2)).length
  let totalDeaths := m.simulationDeaths + m.consumedByDeer
  let stats : TreeStats :=
    { total := aliveTrees.length
      averageAge :=
        if aliveTrees.length = 0 then 0
        else (aliveTrees.map Tree.age).sum / aliveTrees.length
      deaths := totalDeaths
      stressDeaths := m.stressDeaths
      ageDeaths := m.ageDeaths
      concurrenceDeaths := m.concurrenceDeaths
      consumedByDeer := m.consumedByDeer
      totalDeaths := totalDeaths
      youngTrees := youngTrees
      averageHeight :=
        if aliveTrees.length = 0 then 0
        else (aliveTrees.map Tree.height).sum / aliveTrees.length
      ageDistribution := m.getAgeDistribution }
  (stats, { m with consumedByDeer := 0 })

/-- The statistics object built by `DeerManager.getStatistics()`. -/
structure DeerStats where
  total : ℕ
  averageAge : ℚ
  averageStamina : ℚ
  ageDeaths : ℕ
  starvationDeaths : ℕ
  predationDeaths : ℕ
  unknownDeaths : ℕ
  ageDistribution : List (ℤ × ℕ)
deriving Repr, DecidableEq

/-- `DeerManager.getStatistics()` (death-tracking revision; the death
counters are reported but not reset). -/
def DeerMgr.getStatistics (m : DeerMgr) : DeerStats :=
  let aliveDeer := m.deers.filter Deer.isAlive
  { total := aliveDeer.length
    averageAge :=
      if aliveDeer.length = 0 then 0
      else (aliveDeer.map Deer.age).sum / aliveDeer.length
    averageStamina :=
      if aliveDeer.length = 0 then 0
      else (aliveDeer.map Deer.stamina).sum / aliveDeer.length
    ageDeaths := m.ageDeath
    starvationDeaths := m.starvationDeath
    predationDeaths := m.predationDeath
    unknownDeaths := m.unknownDeath
    ageDistribution := aliveDeer.foldl (fun acc d => bumpKey ⌊d.age⌋ acc) [] }

/-- The statistics object built by `WolfManager.getStatistics()`. -/
structure WolfStats where
  total : ℕ
  averageAge : ℚ
  averageStamina : ℚ
  ageDeaths : ℕ
  starvationDeaths : ℕ
  unknownDeaths : ℕ
  ageDistribution : List (ℤ × ℕ)
deriving Repr, DecidableEq

/-- `WolfManager.getStatistics()` (death-tracking revision). -/
def WolfMgr.getStatistics (m : WolfMgr) : WolfStats :=
  let aliveWolves := m.wolves.filter Wolf.isAlive
  { total := aliveWolves.length
    averageAge :=
      if aliveWolves.length = 0 then 0
      else (aliveWolves.map Wolf.age).sum / aliveWolves.length
    averageStamina :=
      if aliveWolves.length = 0 then 0
      else (aliveWolves.map Wolf.stamina).sum / aliveWolves.length
    ageDeaths := m.ageDeath
    starvationDeaths := m.starvationDeath
    unknownDeaths := m.unknownDeath
    ageDistribution := aliveWolves.foldl (fun acc w => bumpKey ⌊w.age⌋ acc) [] }

/-! ## Foraging (`DeerManager.processFeeding`)

The tree pool is modeled by lists of tree-array indices: the JS code
tracks tree objects and recovers the index with `trees.indexOf(tree)`,
and since every slot holds a separately constructed object, object
identity coincides with the slot index.  The per-deer event log records
exactly the quantities the code computes and logs for each deer. -/

/-- `tree instanceof Tree && tree.position !== 0 && tree.age <= edibleAge`. -/
def edibleTree (edibleAge : ℚ) (t : Tree) : Bool :=
  t.occupied && decide (t.age ≤ edibleAge)

/-- The indices of edible trees, in array order (the initial
`edibleTrees` / `availableTrees` pool). -/
def edibleIndices (trees : List Tree) (edibleAge : ℚ) : List ℕ :=
  (List.range trees.length).filter fun i => edibleTree edibleAge (trees.getD i emptyTree)

/-- `this.deers.map((deer, index) => ({deer, index})).filter(isAlive)
.sort((a, b) => b.deer.stamina - a.deer.stamina).map(item => item.index)`:
living deer indices, strongest stamina first. -/
def sortedDeerIndices (deers : List Deer) : List ℕ :=
  (sortBy (fun a b => decide (b.2.stamina ≤ a.2.stamina))
    (deers.enum.filter (fun p => p.2.isAlive))).map Prod.fst

/-- `DeerManager.calculateForagingSuccess(deer, availableTreeCount,
initialTreeCount)`: `Math.sqrt` and `Math.pow(·, 0.9)` are oracles;
`Math.pow(·, 3)` is an exact cube. -/
def calculateForagingSuccess (jm : JsMath) (deer : Deer)
    (availableTreeCount initialTreeCount : ℕ) : ℚ :=
  if availableTreeCount = 0 then 0
  else
    let availabilityFactor :=
      jm.sqrt ((availableTreeCount : ℚ) / max 1 (initialTreeCount : ℚ))
    let staminaFactor :=
      if deer.stamina ≤ 3 then (deer.stamina / 10) ^ 3
      else jm.pow (deer.stamina / 10) 0.9
    let ageFactor := 1 - |deer.age - 4| / 10
    let probability :=
      if deer.stamina ≤ 3 then
        (0.5 + 0.3 * availabilityFactor) * (0.05 + 0.95 * staminaFactor) *
          (0.7 + 0.3 * ageFactor)
      else
        (0.5 + 0.3 * availabilityFactor) * (0.4 + 0.6 * staminaFactor) *
          (0.7 + 0.3 * ageFactor)
    max 0 (min 0.9 probability)

/-- The survival threshold of `processFeeding`, a function of the deer's
hunger factor: 60% for hunger ≤ 3, 70% for hunger ≤ 7, 80% above. -/
def survivalThreshold (hunger : ℚ) : ℚ :=
  if hunger ≤ 3 then 0.6 else if hunger ≤ 7 then 0.7 else 0.8

/-- `massNeeded = deer.hunger * 0.2 * Math.pow(deer.hunger / 5, 0.5)`. -/
def deerMassNeeded (jm : JsMath) (deer : Deer) : ℚ :=
  deer.hunger * 0.2 * jm.pow (deer.hunger / 5) 0.5

/-- Clear the tree slot at `j`: through
`treeManager.markAsConsumedByDeer(treeIndex)` when a tree manager was
passed, else by direct assignment `trees[treeIndex] = new Tree(0,...)`. -/
def clearTreeSlot (useTm : Bool) (tm : TreeMgr) (j : ℕ) : TreeMgr :=
  if useTm then tm.markAsConsumedByDeer j
  else { tm with trees := tm.trees.set j emptyTree }

/-- One consumption event of the foraging inner loop: the deer examines
the tree at index `j` while still needing `massStillNeeded` (> 0).
Returns the updated tree state and pool, the mass eaten from this tree,
whether the tree was fully removed, and whether the loop breaks
("deer's hunger is satisfied"). -/
def consumeTree (useTm : Bool) (tm : TreeMgr) (pool : List ℕ) (j : ℕ)
    (massStillNeeded : ℚ) : TreeMgr × List ℕ × ℚ × Bool × Bool :=
  let tree := tm.trees.getD j emptyTree
  if massStillNeeded ≤ tree.mass then
    let percentConsumed := massStillNeeded / tree.mass
    if percentConsumed ≥ 0.3 ∨ tree.age ≤ 2 then
      (clearTreeSlot useTm tm j, pool.filter (· ≠ j), massStillNeeded, true, true)
    else
      (tm, pool, massStillNeeded, false, true)
  else
    (clearTreeSlot useTm tm j, pool.filter (· ≠ j), tree.mass, true, false)

/-- The foraging inner loop over the shuffled candidate list (already
truncated to `treesToCheck` entries), with loop guard
`massConsumed < massNeeded`.  Also accumulates the indices of fully
removed trees. -/
def forageLoop (useTm : Bool) (massNeeded : ℚ) :
    List ℕ → TreeMgr → List ℕ → ℚ → List ℕ → TreeMgr × List ℕ × ℚ × List ℕ
  | [], tm, pool, massConsumed, log => (tm, pool, massConsumed, log)
  | j :: rest, tm, pool, massConsumed, log =>
    if massConsumed < massNeeded then
      let (tm', pool', eaten, removed, stop) :=
        consumeTree useTm tm pool j (massNeeded - massConsumed)
      let log' := if removed then log ++ [j] else log
      if stop then (tm', pool', massConsumed + eaten, log')
      else forageLoop useTm massNeeded rest tm' pool' (massConsumed + eaten) log'
    else (tm, pool, massConsumed, log)

/-- Per-deer record of one `processFeeding` turn: the deer's index, the
size of the candidate pool at its turn, its hunger, the computed food
requirement, the mass it consumed, and whether it survived. -/
structure FeedEvent where
  idx : ℕ
  poolLen : ℕ
  hunger : ℚ
  massNeeded : ℚ
  massConsumed : ℚ
  survived : Bool
deriving Repr, DecidableEq

/-- One deer's turn of `processFeeding`.  With an empty pool the deer is
killed outright (starvation); otherwise it forages through a shuffled
sample of the pool and survives iff it consumed at least
`massNeeded * survivalThreshold`. -/
def feedOneDeer (jm : JsMath) (useTm : Bool) (initialEdibleCount : ℕ)
    (dm : DeerMgr) (tm : TreeMgr) (pool : List ℕ) (r : Rng) (deerIndex : ℕ) :
    DeerMgr × TreeMgr × List ℕ × Rng × FeedEvent × List ℕ :=
  let deer := dm.deers.getD deerIndex emptyDeer
  if pool.length = 0 then
    (dm.killDeer deerIndex "starvation", tm, pool, r,
      ⟨deerIndex, 0, deer.hunger, 0, 0, false⟩, [])
  else
    let massNeeded := deerMassNeeded jm deer
    let foragingSuccess := calculateForagingSuccess jm deer pool.length initialEdibleCount
    let foragingCapacity :=
      Int.toNat (max 1 ⌊2 + deer.stamina / 2 * foragingSuccess * 3⌋)
    let treesToCheck := min foragingCapacity pool.length
    let (shuffled, r') := jsShuffle pool r
    let (tm', pool', massConsumed, log) :=
      forageLoop useTm massNeeded (shuffled.take treesToCheck) tm pool 0 []
    if massConsumed ≥ massNeeded * survivalThreshold deer.hunger then
      (dm, tm', pool', r',
        ⟨deerIndex, pool.length, deer.hunger, massNeeded, massConsumed, true⟩, log)
    else
      (dm.killDeer deerIndex "starvation", tm', pool', r',
        ⟨deerIndex, pool.length, deer.hunger, massNeeded, massConsumed, false⟩, log)

/-- The outer loop of `processFeeding` over the stamina-sorted deer.
(The recursive state is passed through tuple projections rather than a
destructuring `let`; the two are definitionally equal.) -/
def feedLoop (jm : JsMath) (useTm : Bool) (initialEdibleCount : ℕ) :
    List ℕ → DeerMgr → TreeMgr → List ℕ → Rng →
    DeerMgr × TreeMgr × List ℕ × Rng × List FeedEvent × List ℕ
  | [], dm, tm, pool, r => (dm, tm, pool, r, [], [])
  | i :: rest, dm, tm, pool, r =>
    let fo := feedOneDeer jm useTm initialEdibleCount dm tm pool r i
    let next := feedLoop jm useTm initialEdibleCount rest fo.1 fo.2.1 fo.2.2.1
      fo.2.2.2.1
    (next.1, next.2.1, next.2.2.1, next.2.2.2.1,
     fo.2.2.2.2.1 :: next.2.2.2.2.1, fo.2.2.2.2.2 ++ next.2.2.2.2.2)

/-- Result of `processFeeding`: final manager states, remaining random
stream, the per-deer event log, and the indices of fully removed trees
in removal order. -/
structure FeedOutcome where
  dm : DeerMgr
  tm : TreeMgr
  rng : Rng
  events : List FeedEvent
  consumed : List ℕ
deriving Repr, DecidableEq

/-- `DeerManager.processFeeding(trees, edibleAge, treeManager)`.  The
`trees` argument is `treeManager.trees` (aliased); `useTm` records
whether the optional `treeManager` argument was passed. -/
def DeerMgr.processFeeding (jm : JsMath) (dm : DeerMgr) (tm : TreeMgr)
    (edibleAge : ℚ) (useTm : Bool) (r : Rng) : FeedOutcome :=
  let pool0 := edibleIndices tm.trees edibleAge
  let order := sortedDeerIndices dm.deers
  let (dm', tm', _, r', es, log) :=
    feedLoop jm useTm pool0.length order dm tm pool0 r
  ⟨dm', tm', r', es, log⟩

/-! ## Hunting (`WolfManager.processHunting`, death-tracking revision)

As with foraging, the prey pool is a list of deer-array indices (the JS
code recovers indices from deer objects with `indexOf`). -/

/-- The indices of living deer, in array order (`availableDeer`). -/
def aliveDeerIndices (deers : List Deer) : List ℕ :=
  ((deers.enum.filter (fun p => p.2.isAlive)).map Prod.fst)

/-- Living wolf indices sorted by stamina, strongest first. -/
def sortedWolfIndices (wolves : List Wolf) : List ℕ :=
  (sortBy (fun a b => decide (b.2.stamina ≤ a.2.stamina))
    (wolves.enum.filter (fun p => p.2.isAlive))).map Prod.fst

/-- `WolfManager.calculateHuntingSuccess(wolf, availableDeerCount,
initialDeerCount)`; the pack factor counts the currently living wolves. -/
def calculateHuntingSuccess (jm : JsMath) (wolves : List Wolf) (wolf : Wolf)
    (availableDeerCount initialDeerCount : ℕ) : ℚ :=
  if availableDeerCount = 0 then 0
  else
    let availabilityFactor :=
      min 1 (jm.sqrt ((availableDeerCount : ℚ) / max 1 (initialDeerCount : ℚ)))
    let staminaFactor := min 1 (wolf.stamina / 10)
    let ageFactor := 1 - |wolf.age - 4| / 8
    let wolfCount := (wolves.filter Wolf.isAlive).length
    let packFactor := min 1.5 (0.7 + (wolfCount : ℚ) / 10)
    let probability :=
      (0.4 + 0.4 * availabilityFactor) * (0.6 + 0.4 * staminaFactor) *
        (0.7 + 0.3 * ageFactor) * packFactor
    max 0 (min 0.9 probability)

/-- `massNeeded = wolf.hunger * (wolf.mass / 30)`. -/
def wolfMassNeeded (w : Wolf) : ℚ := w.hunger * (w.mass / 30)

/-- Survivor indices of the zero-prey special case: the living wolves,
sorted young-first by the comparator `a.wolf.age < 3 ? -1 : 1`, truncated
to `Math.max(1, Math.floor(wolves.length * 0.3))` entries. -/
def zeroPreySurvivors (wolves : List Wolf) : List ℕ :=
  let alive := wolves.enum.filter (fun p => p.2.isAlive)
  ((sortBy (fun a _ => decide (a.2.age < 3)) alive).take
    (max 1 (Int.toNat ⌊(alive.length : ℚ) * 0.3⌋))).map Prod.fst

/-- The zero-prey kill sweep: every living wolf whose index is not among
the survivors is killed with cause starvation. -/
def killNonSurvivors (survivors : List ℕ) (wm : WolfMgr) : WolfMgr :=
  (List.range wm.wolves.length).foldl
    (fun m i =>
      if (m.wolves.getD i emptyWolf).isAlive && !(survivors.contains i) then
        m.killWolf i "starvation"
      else m) wm

/-- The capture loop of one wolf's turn: up to `fuel = deerCaptured`
captures, each picking a random deer from the pool, removing it, and
accumulating `min(capturedDeer.mass, massNeeded - massConsumed)`;
breaks early once `massConsumed ≥ massNeeded`. -/
def captureLoop (massNeeded : ℚ) (deers : List Deer) :
    ℕ → List ℕ → ℚ → List ℕ → Rng → List ℕ × ℚ × List ℕ × Rng
  | 0, pool, mc, killed, r => (pool, mc, killed, r)
  | fuel + 1, pool, mc, killed, r =>
    if pool.length = 0 then (pool, mc, killed, r)
    else
      let (d, r') := randNext r
      let k := pickIdx pool.length d
      let capturedIdx := pool.getD k 0
      let pool' := pool.eraseIdx k
      let capturedDeer := deers.getD capturedIdx emptyDeer
      let massFromThisDeer := min capturedDeer.mass (massNeeded - mc)
      let killed' := killed ++ [capturedIdx]
      let mc' := mc + massFromThisDeer
      if mc' ≥ massNeeded then (pool', mc', killed', r')
      else captureLoop massNeeded deers fuel pool' mc' killed' r'

/-- Per-wolf record of one `processHunting` turn. -/
structure HuntEvent where
  idx : ℕ
  availAtTurn : ℕ
  massNeeded : ℚ
  massConsumed : ℚ
  killed : List ℕ
  survived : Bool
deriving Repr, DecidableEq

/-- One wolf's turn of `processHunting`: with an exhausted pool the wolf
is killed outright; otherwise it captures at most
`min(deerFound, 2, remainingDeer.length)` deer, the captured deer are
killed with cause predation, and the wolf survives iff it consumed at
least 60% of its requirement. -/
def huntOneWolf (jm : JsMath) (initialDeerCount : ℕ) (wm : WolfMgr)
    (dm : DeerMgr) (pool : List ℕ) (r : Rng) (wolfIndex : ℕ) :
    WolfMgr × DeerMgr × List ℕ × Rng × HuntEvent :=
  let wolf := wm.wolves.getD wolfIndex emptyWolf
  if pool.length = 0 then
    (wm.killWolf wolfIndex "starvation", dm, pool, r,
      ⟨wolfIndex, 0, wolfMassNeeded wolf, 0, [], false⟩)
  else
    let massNeeded := wolfMassNeeded wolf
    let huntingSuccess :=
      calculateHuntingSuccess jm wm.wolves wolf pool.length initialDeerCount
    let minSuccessRate := min 0.4 huntingSuccess
    let (d, r') := randNext r
    let successRate := minSuccessRate + d * (huntingSuccess - minSuccessRate)
    let deerFound := max 1 (Int.toNat ⌈wolf.hunger * successRate⌉)
    let deerCaptured := min (min deerFound 2) pool.length
    let (pool', massConsumed, killed, r'') :=
      captureLoop massNeeded dm.deers deerCaptured pool 0 [] r'
    let dm' := killed.foldl (fun m i => m.killDeer i "predation") dm
    if massConsumed ≥ massNeeded * 0.6 then
      (wm, dm', pool', r'',
        ⟨wolfIndex, pool.length, massNeeded, massConsumed, killed, true⟩)
    else
      (wm.killWolf wolfIndex "starvation", dm', pool', r'',
        ⟨wolfIndex, pool.length, massNeeded, massConsumed, killed, false⟩)

/-- The outer loop of `processHunting` over the stamina-sorted wolves.
(The recursive state is passed through tuple projections rather than a
destructuring `let`; the two are definitionally equal.) -/
def huntLoop (jm : JsMath) (initialDeerCount : ℕ) :
    List ℕ → WolfMgr → DeerMgr → List ℕ → Rng →
    WolfMgr × DeerMgr × List ℕ × Rng × List HuntEvent
  | [], wm, dm, pool, r => (wm, dm, pool, r, [])
  | i :: rest, wm, dm, pool, r =>
    let ho := huntOneWolf jm initialDeerCount wm dm pool r i
    let next := huntLoop jm initialDeerCount rest ho.1 ho.2.1 ho.2.2.1 ho.2.2.2.1
    (next.1, next.2.1, next.2.2.1, next.2.2.2.1,
     ho.2.2.2.2 :: next.2.2.2.2)

/-- Result of `processHunting`. -/
structure HuntOutcome where
  wm : WolfMgr
  dm : DeerMgr
  rng : Rng
  events : List HuntEvent
deriving Repr, DecidableEq

/-- `WolfManager.processHunting(deerManager)` (death-tracking revision).
With zero living deer the special survivor rule applies and the event
log is empty; otherwise each living wolf hunts in stamina order. -/
def WolfMgr.processHunting (jm : JsMath) (wm : WolfMgr) (dm : DeerMgr)
    (r : Rng) : HuntOutcome :=
  let availableDeer := aliveDeerIndices dm.deers
  if availableDeer.length = 0 then
    ⟨killNonSurvivors (zeroPreySurvivors wm.wolves) wm, dm, r, []⟩
  else
    let order := sortedWolfIndices wm.wolves
    let (wm', dm', _, r', es) :=
      huntLoop jm availableDeer.length order wm dm availableDeer r
    ⟨wm', dm', r', es⟩

/-! ## Index-pool lemmas

The candidate pools built by the phases are lists of array indices of
the shape `(l.enum.filter q).map Prod.fst`; they are duplicate-free and
their members are exactly the in-range indices satisfying `q`. -/

theorem filtIdx_sublist (q : ℕ × β → Bool) (l : List β) :
    ((l.enum.filter q).map Prod.fst).Sublist (List.range l.length) := by
  have h₁ : (l.enum.filter q).Sublist l.enum := List.filter_sublist _
  have h₂ := h₁.map Prod.fst
  rwa [List.enum_map_fst] at h₂

theorem filtIdx_nodup (q : ℕ × β → Bool) (l : List β) :
    ((l.enum.filter q).map Prod.fst).Nodup :=
  (filtIdx_sublist q l).nodup (List.nodup_range _)

theorem mem_filtIdx {q : ℕ × β → Bool} {l : List β} {j : ℕ} (d : β) :
    j ∈ (l.enum.filter q).map Prod.fst ↔
      j < l.length ∧ q (j, l.getD j d) := by
  constructor
  · rintro hj
    rcases List.mem_map.mp hj with ⟨x, hx, hfst⟩
    rcases List.mem_filter.mp hx with ⟨hxe, hxq⟩
    have hget := List.mem_enum_iff_getElem?.mp hxe
    have hlt : x.1 < l.length := by
      by_contra hge
      rw [List.getElem?_eq_none (Nat.le_of_not_lt hge)] at hget
      exact Option.noConfusion hget
    subst hfst
    refine ⟨hlt, ?_⟩
    have : l.getD x.1 d = x.2 := by
      rw [List.getD_eq_getElem?_getD, hget, Option.getD_some]
    rwa [this]
  · rintro ⟨hlt, hq⟩
    refine List.mem_map.mpr ⟨(j, l.getD j d), ?_, rfl⟩
    refine List.mem_filter.mpr ⟨?_, hq⟩
    exact List.mem_enum_iff_getElem?.mpr
      (by rw [List.getElem?_eq_getElem hlt, List.getD_eq_getElem?_getD,
              List.getElem?_eq_getElem hlt, Option.getD_some])

theorem aliveDeerIndices_nodup (deers : List Deer) :
    (aliveDeerIndices deers).Nodup :=
  filtIdx_nodup _ _

theorem mem_aliveDeerIndices {deers : List Deer} {j : ℕ} :
    j ∈ aliveDeerIndices deers ↔
      j < deers.length ∧ (deers.getD j emptyDeer).isAlive :=
  mem_filtIdx emptyDeer

theorem sortedDeerIndices_perm (deers : List Deer) :
    List.Perm (sortedDeerIndices deers) (aliveDeerIndices deers) :=
  (sortBy_perm _ _).map Prod.fst

theorem sortedDeerIndices_nodup (deers : List Deer) :
    (sortedDeerIndices deers).Nodup :=
  ((sortedDeerIndices_perm deers).nodup_iff).mpr (aliveDeerIndices_nodup deers)

theorem mem_sortedDeerIndices {deers : List Deer} {j : ℕ} :
    j ∈ sortedDeerIndices deers ↔
      j < deers.length ∧ (deers.getD j emptyDeer).isAlive := by
  rw [(sortedDeerIndices_perm deers).mem_iff]
  exact mem_aliveDeerIndices

theorem sortedWolfIndices_perm (wolves : List Wolf) :
    List.Perm (sortedWolfIndices wolves)
      ((wolves.enum.filter (fun p => p.2.isAlive)).map Prod.fst) :=
  (sortBy_perm _ _).map Prod.fst

theorem sortedWolfIndices_nodup (wolves : List Wolf) :
    (sortedWolfIndices wolves).Nodup :=
  ((sortedWolfIndices_perm wolves).nodup_iff).mpr (filtIdx_nodup _ _)

theorem mem_sortedWolfIndices {wolves : List Wolf} {j : ℕ} :
    j ∈ sortedWolfIndices wolves ↔
      j < wolves.length ∧ (wolves.getD j emptyWolf).isAlive := by
  rw [(sortedWolfIndices_perm wolves).mem_iff]
  exact mem_filtIdx emptyWolf

theorem edibleIndices_nodup (trees : List Tree) (ea : ℚ) :
    (edibleIndices trees ea).Nodup :=
  (List.Sublist.nodup (List.filter_sublist _) (List.nodup_range _))

theorem mem_edibleIndices {trees : List Tree} {ea : ℚ} {j : ℕ} :
    j ∈ edibleIndices trees ea ↔
      j < trees.length ∧ edibleTree ea (trees.getD j emptyTree) := by
  simp [edibleIndices, List.mem_filter, List.mem_range]

/-! ## Frame lemmas for the kill operations -/

theorem getD_set_ne (l : List α) (i j : ℕ) (x d : α) (h : j ≠ i) :
    (l.set i x).getD j d = l.getD j d := by
  simp [List.getD_eq_getElem?_getD, List.getElem?_set_ne (Ne.symm h)]

theorem getD_set_self (l : List α) (i : ℕ) (x d : α) (h : i < l.length) :
    (l.set i x).getD i d = x := by
  simp [List.getD_eq_getElem?_getD, List.getElem?_set_self', h]

theorem killDeer_deers (m : DeerMgr) (k : ℕ) (c : String) :
    (m.killDeer k c).deers =
      if k < m.deers.length ∧ (m.deers.getD k emptyDeer).isAlive
      then m.deers.set k emptyDeer else m.deers := by
  unfold DeerMgr.killDeer
  split
  · split
    · rfl
    · split
      · rfl
      · split <;> rfl
  · rfl

theorem killWolf_wolves (m : WolfMgr) (k : ℕ) (c : String) :
    (m.killWolf k c).wolves =
      if k < m.wolves.length ∧ (m.wolves.getD k emptyWolf).isAlive
      then m.wolves.set k emptyWolf else m.wolves := by
  unfold WolfMgr.killWolf
  split
  · split
    · rfl
    · split <;> rfl
  · rfl

theorem killDeer_deers_length (m : DeerMgr) (k : ℕ) (c : String) :
    (m.killDeer k c).deers.length = m.deers.length := by
  rw [killDeer_deers]; split <;> simp

theorem killWolf_wolves_length (m : WolfMgr) (k : ℕ) (c : String) :
    (m.killWolf k c).wolves.length = m.wolves.length := by
  rw [killWolf_wolves]; split <;> simp

theorem killDeer_getD_ne (m : DeerMgr) (k : ℕ) (c : String) (j : ℕ) (h : j ≠ k) :
    (m.killDeer k c).deers.getD j emptyDeer = m.deers.getD j emptyDeer := by
  rw [killDeer_deers]; split
  · exact getD_set_ne _ _ _ _ _ h
  · rfl

theorem killWolf_getD_ne (m : WolfMgr) (k : ℕ) (c : String) (j : ℕ) (h : j ≠ k) :
    (m.killWolf k c).wolves.getD j emptyWolf = m.wolves.getD j emptyWolf := by
  rw [killWolf_wolves]; split
  · exact getD_set_ne _ _ _ _ _ h
  · rfl

theorem killDeer_getD_self_dead (m : DeerMgr) (k : ℕ) (c : String)
    (hk : k < m.deers.length) (ha : (m.deers.getD k emptyDeer).isAlive) :
    (m.killDeer k c).deers.getD k emptyDeer = emptyDeer := by
  rw [killDeer_deers, if_pos ⟨hk, ha⟩]
  exact getD_set_self _ _ _ _ hk

theorem killWolf_getD_self_dead (m : WolfMgr) (k : ℕ) (c : String)
    (hk : k < m.wolves.length) (ha : (m.wolves.getD k emptyWolf).isAlive) :
    (m.killWolf k c).wolves.getD k emptyWolf = emptyWolf := by
  rw [killWolf_wolves, if_pos ⟨hk, ha⟩]
  exact getD_set_self _ _ _ _ hk

theorem killDeer_starvation_counters (m : DeerMgr) (k : ℕ)
    (hk : k < m.deers.length) (ha : (m.deers.getD k emptyDeer).isAlive) :
    (m.killDeer k "starvation").starvationDeath = m.starvationDeath + 1 ∧
    (m.killDeer k "starvation").ageDeath = m.ageDeath ∧
    (m.killDeer k "starvation").predationDeath = m.predationDeath ∧
    (m.killDeer k "starvation").unknownDeath = m.unknownDeath := by
  unfold DeerMgr.killDeer
  rw [if_pos ⟨hk, ha⟩]
  simp

theorem killDeer_predation_counters (m : DeerMgr) (k : ℕ) :
    (m.killDeer k "predation").starvationDeath = m.starvationDeath ∧
    (m.killDeer k "predation").ageDeath = m.ageDeath ∧
    (m.killDeer k "predation").unknownDeath = m.unknownDeath := by
  unfold DeerMgr.killDeer
  split
  · simp
  · exact ⟨rfl, rfl, rfl⟩

theorem killWolf_starvation_counters (m : WolfMgr) (k : ℕ)
    (hk : k < m.wolves.length) (ha : (m.wolves.getD k emptyWolf).isAlive) :
    (m.killWolf k "starvation").starvationDeath = m.starvationDeath + 1 ∧
    (m.killWolf k "starvation").ageDeath = m.ageDeath ∧
    (m.killWolf k "starvation").unknownDeath = m.unknownDeath := by
  unfold WolfMgr.killWolf
  rw [if_pos ⟨hk, ha⟩]
  simp

theorem killDeer_noop_of_dead (m : DeerMgr) (k : ℕ) (c : String)
    (h : ¬ (m.deers.getD k emptyDeer).isAlive = true) :
    m.killDeer k c = m := by
  unfold DeerMgr.killDeer
  rw [if_neg (by rintro ⟨_, hal⟩; exact h hal)]

theorem killWolf_noop_of_dead (m : WolfMgr) (k : ℕ) (c : String)
    (h : ¬ (m.wolves.getD k emptyWolf).isAlive = true) :
    m.killWolf k c = m := by
  unfold WolfMgr.killWolf
  rw [if_neg (by rintro ⟨_, hal⟩; exact h hal)]

theorem killDeer_counters_mono (m : DeerMgr) (k : ℕ) (c : String) :
    m.ageDeath ≤ (m.killDeer k c).ageDeath ∧
    m.starvationDeath ≤ (m.killDeer k c).starvationDeath ∧
    m.predationDeath ≤ (m.killDeer k c).predationDeath ∧
    m.unknownDeath ≤ (m.killDeer k c).unknownDeath := by
  unfold DeerMgr.killDeer
  split
  · split
    · exact ⟨Nat.le_succ _, le_refl _, le_refl _, le_refl _⟩
    · split
      · exact ⟨le_refl _, Nat.le_succ _, le_refl _, le_refl _⟩
      · split
        · exact ⟨le_refl _, le_refl _, Nat.le_succ _, le_refl _⟩
        · exact ⟨le_refl _, le_refl _, le_refl _, Nat.le_succ _⟩
  · exact ⟨le_refl _, le_refl _, le_refl _, le_refl _⟩

theorem killWolf_counters_mono (m : WolfMgr) (k : ℕ) (c : String) :
    m.ageDeath ≤ (m.killWolf k c).ageDeath ∧
    m.starvationDeath ≤ (m.killWolf k c).starvationDeath ∧
    m.unknownDeath ≤ (m.killWolf k c).unknownDeath := by
  unfold WolfMgr.killWolf
  split
  · split
    · exact ⟨Nat.le_succ _, le_refl _, le_refl _⟩
    · split
      · exact ⟨le_refl _, Nat.le_succ _, le_refl _⟩
      · exact ⟨le_refl _, le_refl _, Nat.le_succ _⟩
  · exact ⟨le_refl _, le_refl _, le_refl _⟩

theorem killDeer_idem (m : DeerMgr) (k : ℕ) (c : String) :
    (m.killDeer k c).killDeer k c = m.killDeer k c := by
  by_cases g : k < m.deers.length ∧ (m.deers.getD k emptyDeer).isAlive = true
  · apply killDeer_noop_of_dead
    rw [killDeer_getD_self_dead m k c g.1 g.2]
    simp [Deer.isAlive, emptyDeer]
  · have h : m.killDeer k c = m := by unfold DeerMgr.killDeer; rw [if_neg g]
    rw [h, h]

theorem killWolf_idem (m : WolfMgr) (k : ℕ) (c : String) :
    (m.killWolf k c).killWolf k c = m.killWolf k c := by
  by_cases g : k < m.wolves.length ∧ (m.wolves.getD k emptyWolf).isAlive = true
  · apply killWolf_noop_of_dead
    rw [killWolf_getD_self_dead m k c g.1 g.2]
    simp [Wolf.isAlive, emptyWolf]
  · have h : m.killWolf k c = m := by unfold WolfMgr.killWolf; rw [if_neg g]
    rw [h, h]

/-! ## Claim theorems: frame effect of `getStatistics` and idempotence of kills -/

/-- **C10**: `TreeManager.getStatistics` is not a read-only snapshot:
after building the statistics object (which reports the current
`consumedByDeer`) it resets the `consumedByDeer` counter to 0 while
leaving the tree array and every other death counter unchanged, so a
second immediate call returns `consumedByDeer = 0`. -/
theorem C10_getStatistics_frame (m : TreeMgr) :
    (m.getStatistics.1).consumedByDeer = m.consumedByDeer ∧
    m.getStatistics.2.consumedByDeer = 0 ∧
    m.getStatistics.2.trees = m.trees ∧
    m.getStatistics.2.gridSize = m.gridSize ∧
    m.getStatistics.2.isStabilizing = m.isStabilizing ∧
    m.getStatistics.2.stressDeaths = m.stressDeaths ∧
    m.getStatistics.2.ageDeaths = m.ageDeaths ∧
    m.getStatistics.2.concurrenceDeaths = m.concurrenceDeaths ∧
    m.getStatistics.2.simulationDeaths = m.simulationDeaths ∧
    m.getStatistics.2.initializationDeaths = m.initializationDeaths ∧
    ((m.getStatistics.2).getStatistics.1).consumedByDeer = 0 :=
  ⟨rfl, rfl, rfl, rfl, rfl, rfl, rfl, rfl, rfl, rfl, rfl⟩

/-- **C8**: killing an already-empty slot is a no-op: for every index
whose slot has id 0, `killDeer` / `killWolf` leave the population array
and every death-cause counter unchanged; no counter ever decreases (they
are natural numbers, so they also cannot become negative), and killing
the same index twice equals killing it once. -/
theorem C8_kill_empty_noop_and_idem
    (dm dm₂ : DeerMgr) (wm wm₂ : WolfMgr) (i j k k' : ℕ)
    (cd cw c c' : String)
    (hd : (dm.deers.getD i emptyDeer).nr = 0)
    (hw : (wm.wolves.getD j emptyWolf).nr = 0) :
    dm.killDeer i cd = dm ∧
    wm.killWolf j cw = wm ∧
    (dm₂.killDeer k c).killDeer k c = dm₂.killDeer k c ∧
    (wm₂.killWolf k' c').killWolf k' c' = wm₂.killWolf k' c' ∧
    dm₂.ageDeath ≤ (dm₂.killDeer k c).ageDeath ∧
    dm₂.starvationDeath ≤ (dm₂.killDeer k c).starvationDeath ∧
    dm₂.predationDeath ≤ (dm₂.killDeer k c).predationDeath ∧
    dm₂.unknownDeath ≤ (dm₂.killDeer k c).unknownDeath ∧
    wm₂.ageDeath ≤ (wm₂.killWolf k' c').ageDeath ∧
    wm₂.starvationDeath ≤ (wm₂.killWolf k' c').starvationDeath ∧
    wm₂.unknownDeath ≤ (wm₂.killWolf k' c').unknownDeath := by
  obtain ⟨d1, d2, d3, d4⟩ := killDeer_counters_mono dm₂ k c
  obtain ⟨w1, w2, w3⟩ := killWolf_counters_mono wm₂ k' c'
  exact ⟨killDeer_noop_of_dead dm i cd
      (by simp only [Deer.isAlive]; rw [hd]; decide),
    killWolf_noop_of_dead wm j cw
      (by simp only [Wolf.isAlive]; rw [hw]; decide),
    killDeer_idem dm₂ k c, killWolf_idem wm₂ k' c',
    d1, d2, d3, d4, w1, w2, w3⟩

/-- Concrete deer manager for the C8 witness: slot 0 empty, slot 1 alive. -/
def dmC8 : DeerMgr := ⟨[emptyDeer, ⟨2, 3, 21, 5, 4⟩], 0, 1, 2, 3⟩

/-- Concrete wolf manager for the C8 witness: slot 0 alive, slot 1 empty. -/
def wmC8 : WolfMgr := ⟨[⟨1, 2, 14, 3, 5⟩, emptyWolf], 4, 5, 6⟩

/-- Witness for C8 at concrete inputs. -/
theorem C8_witness :
    ((dmC8.deers.getD 0 emptyDeer).nr = 0 ∧
     (wmC8.wolves.getD 1 emptyWolf).nr = 0) ∧
    (dmC8.killDeer 0 "age" = dmC8 ∧
     wmC8.killWolf 1 "starvation" = wmC8 ∧
     (dmC8.killDeer 1 "starvation").killDeer 1 "starvation" =
       dmC8.killDeer 1 "starvation" ∧
     (wmC8.killWolf 0 "age").killWolf 0 "age" = wmC8.killWolf 0 "age" ∧
     dmC8.ageDeath ≤ (dmC8.killDeer 1 "starvation").ageDeath ∧
     dmC8.starvationDeath ≤ (dmC8.killDeer 1 "starvation").starvationDeath ∧
     dmC8.predationDeath ≤ (dmC8.killDeer 1 "starvation").predationDeath ∧
     dmC8.unknownDeath ≤ (dmC8.killDeer 1 "starvation").unknownDeath ∧
     wmC8.ageDeath ≤ (wmC8.killWolf 0 "age").ageDeath ∧
     wmC8.starvationDeath ≤ (wmC8.killWolf 0 "age").starvationDeath ∧
     wmC8.unknownDeath ≤ (wmC8.killWolf 0 "age").unknownDeath) :=
  ⟨⟨by decide, by decide⟩,
   C8_kill_empty_noop_and_idem dmC8 dmC8 wmC8 wmC8 0 1 1 0
     "age" "starvation" "starvation" "age" (by decide) (by decide)⟩

/-! ## A concrete oracle instance for witnesses

The theorems hold for every `JsMath` oracle; witnesses instantiate it
with `jmExact`, which returns the exact value wherever the witness
scenarios evaluate it (integer exponents, perfect-square square roots). -/

/-- Fuel-based Newton iteration for the integer square root (structural
recursion, so it evaluates by kernel reduction). -/
def sqrtIter : ℕ → ℕ → ℕ → ℕ
  | 0, _, guess => guess
  | fuel + 1, n, guess =>
    let next := (guess + n / guess) / 2
    if next < guess then sqrtIter fuel n next else guess

/-- Integer square root (floor), by fuel-based Newton iteration. -/
def natSqrt (n : ℕ) : ℕ := if n ≤ 1 then n else sqrtIter n n (n / 2)

/-- Exact square root of a rational whose numerator and denominator are
perfect squares; `0` elsewhere. -/
def ratSqrt (q : ℚ) : ℚ :=
  if natSqrt q.num.toNat ^ 2 = q.num.toNat ∧ natSqrt q.den ^ 2 = q.den ∧ 0 ≤ q.num then
    (natSqrt q.num.toNat : ℚ) / (natSqrt q.den : ℚ)
  else 0

/-- Witness oracle: exact powers for integer exponents, exact square
roots where they exist, `0` elsewhere. -/
def jmExact : JsMath where
  pow := fun x y => if y.den = 1 then x ^ y.num else if y = 0.5 then ratSqrt x else 0
  sqrt := ratSqrt
  exp := fun _ => 0

attribute [local semireducible] Rat.mul Rat.add Rat.inv Rat.sub Rat.ofScientific

/-! ## Claim theorem: producer growth (`TreeManager.grow`) -/

theorem growTree_position (jm : JsMath) (t : Tree) :
    (growTree jm t).position = t.position := by
  unfold growTree; split <;> rfl

theorem growTree_occupied (jm : JsMath) (t : Tree) :
    (growTree jm t).occupied = t.occupied := by
  simp [Tree.occupied, growTree_position]

theorem grow_population_count (jm : JsMath) (m : TreeMgr) :
    (m.grow jm).getPopulationCount = m.getPopulationCount := by
  unfold TreeMgr.grow TreeMgr.getPopulationCount
  simp only [List.filter_map, List.length_map]
  congr 1
  apply List.filter_congr
  intro t _
  simp [Function.comp, growTree_occupied]

/-- **C7**: for a producer population with 50 occupied slots in a
100-slot array (each occupied tree carrying its derived diameter
`0.01 · age`), one call to `grow()` increases every occupied plant's age
by exactly 1 and its diameter by exactly the formula increment `0.01`,
returns every empty slot unchanged, and keeps the alive count at 50. -/
theorem C7_grow_ages_and_diameters (jm : JsMath) (m : TreeMgr)
    (hlen : m.trees.length = 100)
    (hcount : m.getPopulationCount = 50)
    (hwf : ∀ t ∈ m.trees, t.occupied = true → t.diameter = 0.01 * t.age) :
    (∀ i, i < m.trees.length →
      ((m.trees.getD i emptyTree).occupied = true →
        ((m.grow jm).trees.getD i emptyTree).age =
          (m.trees.getD i emptyTree).age + 1 ∧
        ((m.grow jm).trees.getD i emptyTree).diameter =
          (m.trees.getD i emptyTree).diameter + 0.01) ∧
      ((m.trees.getD i emptyTree).occupied = false →
        (m.grow jm).trees.getD i emptyTree = m.trees.getD i emptyTree)) ∧
    (m.grow jm).getPopulationCount = 50 := by
  constructor
  · intro i hi
    have hi' : i < (m.trees.map (growTree jm)).length := by
      rw [List.length_map]; exact hi
    have hmap : (m.grow jm).trees.getD i emptyTree =
        growTree jm (m.trees.getD i emptyTree) := by
      unfold TreeMgr.grow
      rw [List.getD_eq_getElem _ _ hi', List.getD_eq_getElem _ _ hi,
        List.getElem_map]
    set t := m.trees.getD i emptyTree with ht
    have htm : t ∈ m.trees := by
      rw [ht, List.getD_eq_getElem _ _ hi]; exact List.getElem_mem hi
    constructor
    · intro hocc
      have hpos : ¬ t.position = 0 := by
        intro h0
        rw [Tree.occupied, h0] at hocc
        exact absurd hocc (by decide)
      rw [hmap]
      unfold growTree
      rw [if_neg hpos]
      refine ⟨rfl, ?_⟩
      have hd := hwf t htm hocc
      simp only [hd]
      ring
    · intro hocc
      have hpos : t.position = 0 := by
        by_contra h0
        rw [Tree.occupied] at hocc
        simp [h0] at hocc
      rw [hmap]
      unfold growTree
      rw [if_pos hpos]
  · rw [grow_population_count, hcount]

/-- Concrete 100-slot tree manager for the C7 witness: slots 0–49 hold a
30-year-old tree with diameter `0.3 = 0.01 · 30`, slots 50–99 are empty. -/
def tmC7 : TreeMgr :=
  ⟨List.replicate 50 ⟨1, 30, 2, 0.3, 40⟩ ++ List.replicate 50 emptyTree,
   100, false, 0, 0, 0, 0, 0, 0⟩

/-- Witness for C7 at a concrete input. -/
theorem C7_witness :
    (tmC7.trees.length = 100 ∧ tmC7.getPopulationCount = 50 ∧
     (∀ t ∈ tmC7.trees, t.occupied = true → t.diameter = 0.01 * t.age)) ∧
    ((∀ i, i < tmC7.trees.length →
      ((tmC7.trees.getD i emptyTree).occupied = true →
        ((tmC7.grow jmExact).trees.getD i emptyTree).age =
          (tmC7.trees.getD i emptyTree).age + 1 ∧
        ((tmC7.grow jmExact).trees.getD i emptyTree).diameter =
          (tmC7.trees.getD i emptyTree).diameter + 0.01) ∧
      ((tmC7.trees.getD i emptyTree).occupied = false →
        (tmC7.grow jmExact).trees.getD i emptyTree =
          tmC7.trees.getD i emptyTree)) ∧
     (tmC7.grow jmExact).getPopulationCount = 50) :=
  ⟨⟨by decide, by decide, by decide⟩,
   C7_grow_ages_and_diameters jmExact tmC7 (by decide) (by decide) (by decide)⟩

/-! ## Claim theorem: zero edible plants (`processFeeding` edge policy) -/

theorem length_filter_enumFrom (pred : β → Bool) (l : List β) (n : ℕ) :
    ((List.enumFrom n l).filter (fun p => pred p.2)).length =
      (l.filter pred).length := by
  induction l generalizing n with
  | nil => rfl
  | cons x xs ih =>
    simp only [List.enumFrom, List.filter_cons]
    by_cases h : pred x = true
    · simp [h, ih]
    · simp [h, ih]

theorem length_filtIdx (pred : β → Bool) (l : List β) :
    ((l.enum.filter (fun p => pred p.2)).map Prod.fst).length =
      (l.filter pred).length := by
  rw [List.length_map]
  exact length_filter_enumFrom pred l 0

theorem sortedDeerIndices_length (deers : List Deer) :
    (sortedDeerIndices deers).length = (deers.filter Deer.isAlive).length := by
  rw [(sortedDeerIndices_perm deers).length_eq]
  exact length_filtIdx Deer.isAlive deers

theorem feedOneDeer_nil_pool (jm : JsMath) (useTm : Bool) (n : ℕ)
    (dm : DeerMgr) (tm : TreeMgr) (r : Rng) (i : ℕ) :
    feedOneDeer jm useTm n dm tm [] r i =
      (dm.killDeer i "starvation", tm, [], r,
        ⟨i, 0, (dm.deers.getD i emptyDeer).hunger, 0, 0, false⟩, []) := rfl

theorem feedLoop_nil_pool (jm : JsMath) (useTm : Bool) (n : ℕ)
    (L : List ℕ) (dm : DeerMgr) (tm : TreeMgr) (r : Rng) :
    ∃ es, feedLoop jm useTm n L dm tm [] r =
      (L.foldl (fun m i => m.killDeer i "starvation") dm, tm, [], r, es, []) := by
  induction L generalizing dm with
  | nil => exact ⟨[], rfl⟩
  | cons i rest ih =>
    obtain ⟨es, hes⟩ := ih (dm.killDeer i "starvation")
    refine ⟨⟨i, 0, (dm.deers.getD i emptyDeer).hunger, 0, 0, false⟩ :: es, ?_⟩
    simp only [feedLoop, feedOneDeer_nil_pool, hes, List.foldl_cons,
      List.nil_append]

theorem killFold_starvation (dm : DeerMgr) (L : List ℕ)
    (hnd : L.Nodup)
    (halive : ∀ j ∈ L, j < dm.deers.length ∧
      (dm.deers.getD j emptyDeer).isAlive = true) :
    (L.foldl (fun m i => m.killDeer i "starvation") dm).deers.length =
      dm.deers.length ∧
    (∀ j, (L.foldl (fun m i => m.killDeer i "starvation") dm).deers.getD j
        emptyDeer =
      if j ∈ L then emptyDeer else dm.deers.getD j emptyDeer) ∧
    (L.foldl (fun m i => m.killDeer i "starvation") dm).starvationDeath =
      dm.starvationDeath + L.length ∧
    (L.foldl (fun m i => m.killDeer i "starvation") dm).ageDeath =
      dm.ageDeath ∧
    (L.foldl (fun m i => m.killDeer i "starvation") dm).predationDeath =
      dm.predationDeath ∧
    (L.foldl (fun m i => m.killDeer i "starvation") dm).unknownDeath =
      dm.unknownDeath := by
  induction L generalizing dm with
  | nil => exact ⟨rfl, fun j => by simp, rfl, rfl, rfl, rfl⟩
  | cons i rest ih =>
    obtain ⟨hi, hai⟩ := halive i (List.mem_cons_self i rest)
    have hrest : ∀ j ∈ rest, j < (dm.killDeer i "starvation").deers.length ∧
        ((dm.killDeer i "starvation").deers.getD j emptyDeer).isAlive = true := by
      intro j hj
      have hji : j ≠ i := by
        rintro rfl
        exact (List.nodup_cons.mp hnd).1 hj
      obtain ⟨h1, h2⟩ := halive j (List.mem_cons_of_mem i hj)
      refine ⟨by rwa [killDeer_deers_length], ?_⟩
      rwa [killDeer_getD_ne _ _ _ _ hji]
    obtain ⟨ihlen, ihget, ihstarv, ihage, ihpred, ihunk⟩ :=
      ih (dm.killDeer i "starvation") (List.nodup_cons.mp hnd).2 hrest
    obtain ⟨cs, ca, cp, cu⟩ := killDeer_starvation_counters dm i hi hai
    simp only [List.foldl_cons] at *
    refine ⟨by rw [ihlen, killDeer_deers_length], ?_, ?_, ?_, ?_, ?_⟩
    · intro j
      rw [ihget j]
      by_cases hjr : j ∈ rest
      · rw [if_pos hjr, if_pos (List.mem_cons_of_mem i hjr)]
      · by_cases hji : j = i
        · subst hji
          rw [if_neg hjr, if_pos (List.mem_cons_self j rest),
            killDeer_getD_self_dead dm j "starvation" hi hai]
        · have hnotin : ¬ j ∈ i :: rest := by
            intro hmem
            rcases List.mem_cons.mp hmem with h | h
            exacts [hji h, hjr h]
          rw [if_neg hjr, if_neg hnotin,
            killDeer_getD_ne dm i "starvation" j hji]
    · rw [ihstarv, cs, List.length_cons]
      ring
    · rw [ihage, ca]
    · rw [ihpred, cp]
    · rw [ihunk, cu]

/-- **C5**: if `processFeeding` runs with zero edible plants present,
every living herbivore is killed with cause starvation (the starvation
counter increases by exactly the living count, the other counters are
untouched) and the alive count becomes 0; the tree state is unchanged
and no tree is consumed.  The embedding is a total function, mirroring
that the code throws no exception on this path. -/
theorem C5_no_edible_all_starve (jm : JsMath) (dm : DeerMgr) (tm : TreeMgr)
    (edibleAge : ℚ) (useTm : Bool) (r : Rng)
    (hE : edibleIndices tm.trees edibleAge = []) :
    (dm.processFeeding jm tm edibleAge useTm r).tm = tm ∧
    ((dm.processFeeding jm tm edibleAge useTm r).dm.deers.filter
      Deer.isAlive).length = 0 ∧
    (dm.processFeeding jm tm edibleAge useTm r).dm.starvationDeath =
      dm.starvationDeath + (dm.deers.filter Deer.isAlive).length ∧
    (dm.processFeeding jm tm edibleAge useTm r).dm.ageDeath = dm.ageDeath ∧
    (dm.processFeeding jm tm edibleAge useTm r).dm.predationDeath =
      dm.predationDeath ∧
    (dm.processFeeding jm tm edibleAge useTm r).dm.unknownDeath =
      dm.unknownDeath ∧
    (dm.processFeeding jm tm edibleAge useTm r).consumed = [] := by
  obtain ⟨es, hes⟩ :=
    feedLoop_nil_pool jm useTm (edibleIndices tm.trees edibleAge).length
      (sortedDeerIndices dm.deers) dm tm r
  have hout : dm.processFeeding jm tm edibleAge useTm r =
      ⟨(sortedDeerIndices dm.deers).foldl
          (fun m i => m.killDeer i "starvation") dm, tm, r, es, []⟩ := by
    unfold DeerMgr.processFeeding
    rw [hE] at hes ⊢
    simp only
    rw [hes]
  obtain ⟨klen, kget, kstarv, kage, kpred, kunk⟩ :=
    killFold_starvation dm (sortedDeerIndices dm.deers)
      (sortedDeerIndices_nodup dm.deers)
      (fun j hj => mem_sortedDeerIndices.mp hj)
  rw [hout]
  refine ⟨rfl, ?_, ?_, kage, kpred, kunk, rfl⟩
  · rw [List.length_eq_zero]
    apply List.filter_eq_nil_iff.mpr
    intro d hd
    obtain ⟨k, hk, hdk⟩ := List.getElem_of_mem hd
    have hgetD : ((sortedDeerIndices dm.deers).foldl
        (fun m i => m.killDeer i "starvation") dm).deers.getD k emptyDeer = d := by
      rw [List.getD_eq_getElem _ _ hk, hdk]
    have hklt : k < dm.deers.length := by rwa [klen] at hk
    rw [kget k] at hgetD
    by_cases hmem : k ∈ sortedDeerIndices dm.deers
    · rw [if_pos hmem] at hgetD
      rw [← hgetD]
      decide
    · rw [if_neg hmem] at hgetD
      intro hal
      exact hmem (mem_sortedDeerIndices.mpr ⟨hklt, by rw [hgetD]; exact hal⟩)
  · rw [kstarv, sortedDeerIndices_length]

/-- Concrete input for the C5 witness: one living deer with hunger 5 and
one tree too old to be edible (age 5 > edibleAge 2). -/
def dmC5 : DeerMgr := ⟨[⟨1, 3, 21, 5, 4⟩], 0, 0, 0, 0⟩

/-- Tree state for the C5 witness. -/
def tmC5 : TreeMgr := ⟨[⟨1, 5, 2, 0.05, 10⟩], 1, false, 0, 0, 0, 0, 0, 0⟩

/-- Witness for C5: the single deer (hunger 5) starves and the alive
count becomes 0. -/
theorem C5_witness :
    edibleIndices tmC5.trees 2 = [] ∧
    ((dmC5.processFeeding jmExact tmC5 2 true []).tm = tmC5 ∧
     ((dmC5.processFeeding jmExact tmC5 2 true []).dm.deers.filter
       Deer.isAlive).length = 0 ∧
     (dmC5.processFeeding jmExact tmC5 2 true []).dm.starvationDeath =
       dmC5.starvationDeath + (dmC5.deers.filter Deer.isAlive).length ∧
     (dmC5.processFeeding jmExact tmC5 2 true []).dm.ageDeath =
       dmC5.ageDeath ∧
     (dmC5.processFeeding jmExact tmC5 2 true []).dm.predationDeath =
       dmC5.predationDeath ∧
     (dmC5.processFeeding jmExact tmC5 2 true []).dm.unknownDeath =
       dmC5.unknownDeath ∧
     (dmC5.processFeeding jmExact tmC5 2 true []).consumed = []) :=
  ⟨by decide, C5_no_edible_all_starve jmExact dmC5 tmC5 2 true [] (by decide)⟩

/-! ## Depletion invariants of the foraging inner loop -/

theorem consumeTree_shape (useTm : Bool) (tm : TreeMgr) (pool : List ℕ)
    (j : ℕ) (msn : ℚ) :
    (∃ tm', consumeTree useTm tm pool j msn =
      (tm', pool.filter (· ≠ j), msn, true, true)) ∨
    consumeTree useTm tm pool j msn = (tm, pool, msn, false, true) ∨
    (∃ tm' eaten, consumeTree useTm tm pool j msn =
      (tm', pool.filter (· ≠ j), eaten, true, false)) := by
  unfold consumeTree
  dsimp only
  by_cases h1 : msn ≤ (tm.trees.getD j emptyTree).mass
  · rw [if_pos h1]
    by_cases h2 : msn / (tm.trees.getD j emptyTree).mass ≥ 0.3 ∨
        (tm.trees.getD j emptyTree).age ≤ 2
    · rw [if_pos h2]
      exact Or.inl ⟨_, rfl⟩
    · rw [if_neg h2]
      exact Or.inr (Or.inl rfl)
  · rw [if_neg h1]
    exact Or.inr (Or.inr ⟨_, _, rfl⟩)

theorem forageLoop_inv (useTm : Bool) (needed : ℚ) (cand : List ℕ)
    (tm : TreeMgr) (pool : List ℕ) (mc : ℚ) (log : List ℕ)
    (hpool : pool.Nodup) (hcnd : cand.Nodup)
    (hcand : ∀ x ∈ cand, x ∈ pool)
    (hlog : log.Nodup) (hdisj : ∀ x ∈ log, x ∉ pool) :
    (forageLoop useTm needed cand tm pool mc log).2.1.Nodup ∧
    (∀ x ∈ (forageLoop useTm needed cand tm pool mc log).2.1, x ∈ pool) ∧
    (forageLoop useTm needed cand tm pool mc log).2.2.2.Nodup ∧
    (∀ x ∈ (forageLoop useTm needed cand tm pool mc log).2.2.2,
      x ∉ (forageLoop useTm needed cand tm pool mc log).2.1) ∧
    (∀ x ∈ (forageLoop useTm needed cand tm pool mc log).2.2.2,
      x ∈ log ∨ x ∈ pool) := by
  induction cand generalizing tm pool mc log with
  | nil =>
    exact ⟨hpool, fun x hx => hx, hlog, fun x hx => hdisj x hx,
      fun x hx => Or.inl hx⟩
  | cons j rest ih =>
    have hjp : j ∈ pool := hcand j (List.mem_cons_self j rest)
    have hjlog : j ∉ log := fun hj => hdisj j hj hjp
    have happ_nodup : (log ++ [j]).Nodup := by
      rw [List.nodup_append]
      exact ⟨hlog, List.nodup_singleton j,
        by intro x hx hxj; rw [List.mem_singleton] at hxj; subst hxj;
           exact hjlog hx⟩
    by_cases hmc : mc < needed
    · rcases consumeTree_shape useTm tm pool j (needed - mc) with
        ⟨tm1, hct⟩ | hct | ⟨tm1, eaten, hct⟩
      · simp only [forageLoop, if_pos hmc, hct]
        refine ⟨hpool.filter _, ?_, happ_nodup, ?_, ?_⟩
        · intro x hx
          exact (List.mem_filter.mp hx).1
        · intro x hx hxin
          rcases List.mem_append.mp hx with h | h
          · exact hdisj x h (List.mem_filter.mp hxin).1
          · rw [List.mem_singleton] at h
            subst h
            have := (List.mem_filter.mp hxin).2
            simp at this
        · intro x hx
          rcases List.mem_append.mp hx with h | h
          · exact Or.inl h
          · rw [List.mem_singleton] at h
            subst h
            exact Or.inr hjp
      · simp only [forageLoop, if_pos hmc, hct]
        exact ⟨hpool, fun x hx => hx, hlog, fun x hx => hdisj x hx,
          fun x hx => Or.inl hx⟩
      · simp only [forageLoop, if_pos hmc, hct]
        have hrest_pool : ∀ x ∈ rest, x ∈ pool.filter (· ≠ j) := by
          intro x hx
          refine List.mem_filter.mpr ⟨hcand x (List.mem_cons_of_mem j hx), ?_⟩
          have : x ≠ j := by
            rintro rfl
            exact (List.nodup_cons.mp hcnd).1 hx
          simp [this]
        have hdisj' : ∀ x ∈ log ++ [j], x ∉ pool.filter (· ≠ j) := by
          intro x hx hxin
          rcases List.mem_append.mp hx with h | h
          · exact hdisj x h (List.mem_filter.mp hxin).1
          · rw [List.mem_singleton] at h
            subst h
            have := (List.mem_filter.mp hxin).2
            simp at this
        obtain ⟨p1, p2, p3, p4, p5⟩ :=
          ih tm1 (pool.filter (· ≠ j)) (mc + eaten) (log ++ [j])
            (hpool.filter _) (List.nodup_cons.mp hcnd).2 hrest_pool
            happ_nodup hdisj'
        refine ⟨p1, ?_, p3, p4, ?_⟩
        · intro x hx
          exact (List.mem_filter.mp (p2 x hx)).1
        · intro x hx
          rcases p5 x hx with h | h
          · rcases List.mem_append.mp h with h' | h'
            · exact Or.inl h'
            · rw [List.mem_singleton] at h'
              subst h'
              exact Or.inr hjp
          · exact Or.inr (List.mem_filter.mp h).1
    · simp only [forageLoop, if_neg hmc]
      exact ⟨hpool, fun x hx => hx, hlog, fun x hx => hdisj x hx,
        fun x hx => Or.inl hx⟩

/-! ## Per-deer characterization of `feedOneDeer` -/

/-- Unfolded form of one deer's turn when the pool is non-empty. -/
theorem feedOneDeer_eq (jm : JsMath) (useTm : Bool) (n : ℕ) (dm : DeerMgr)
    (tm : TreeMgr) (pool : List ℕ) (r : Rng) (i : ℕ) (h : ¬ pool.length = 0) :
    feedOneDeer jm useTm n dm tm pool r i =
      (let deer := dm.deers.getD i emptyDeer
       let needed := deerMassNeeded jm deer
       let cap := Int.toNat (max 1 ⌊2 + deer.stamina / 2 *
         calculateForagingSuccess jm deer pool.length n * 3⌋)
       let FL := forageLoop useTm needed
         (((jsShuffle pool r).1).take (min cap pool.length)) tm pool 0 []
       if FL.2.2.1 ≥ needed * survivalThreshold deer.hunger then
         (dm, FL.1, FL.2.1, (jsShuffle pool r).2,
          ⟨i, pool.length, deer.hunger, needed, FL.2.2.1, true⟩, FL.2.2.2)
       else
         (dm.killDeer i "starvation", FL.1, FL.2.1, (jsShuffle pool r).2,
          ⟨i, pool.length, deer.hunger, needed, FL.2.2.1, false⟩, FL.2.2.2)) := by
  unfold feedOneDeer
  rw [if_neg h]

/-- Spec of one deer's turn: the recorded event fields, the survival
rule, the deer-manager update, and the pool/log depletion invariants. -/
theorem feedOneDeer_spec (jm : JsMath) (useTm : Bool) (n : ℕ) (dm : DeerMgr)
    (tm : TreeMgr) (pool : List ℕ) (r : Rng) (i : ℕ) (hp : pool.Nodup) :
    (feedOneDeer jm useTm n dm tm pool r i).2.2.2.2.1.idx = i ∧
    (feedOneDeer jm useTm n dm tm pool r i).2.2.2.2.1.poolLen = pool.length ∧
    (feedOneDeer jm useTm n dm tm pool r i).2.2.2.2.1.hunger =
      (dm.deers.getD i emptyDeer).hunger ∧
    (0 < (feedOneDeer jm useTm n dm tm pool r i).2.2.2.2.1.poolLen →
      ((feedOneDeer jm useTm n dm tm pool r i).2.2.2.2.1.survived = true ↔
        (feedOneDeer jm useTm n dm tm pool r i).2.2.2.2.1.massNeeded *
          survivalThreshold
            (feedOneDeer jm useTm n dm tm pool r i).2.2.2.2.1.hunger ≤
        (feedOneDeer jm useTm n dm tm pool r i).2.2.2.2.1.massConsumed)) ∧
    ((feedOneDeer jm useTm n dm tm pool r i).2.2.2.2.1.poolLen = 0 →
      (feedOneDeer jm useTm n dm tm pool r i).2.2.2.2.1.survived = false) ∧
    (feedOneDeer jm useTm n dm tm pool r i).1 =
      (if (feedOneDeer jm useTm n dm tm pool r i).2.2.2.2.1.survived then dm
       else dm.killDeer i "starvation") ∧
    (feedOneDeer jm useTm n dm tm pool r i).2.2.1.Nodup ∧
    (∀ x ∈ (feedOneDeer jm useTm n dm tm pool r i).2.2.1, x ∈ pool) ∧
    (feedOneDeer jm useTm n dm tm pool r i).2.2.2.2.2.Nodup ∧
    (∀ x ∈ (feedOneDeer jm useTm n dm tm pool r i).2.2.2.2.2,
      x ∈ pool ∧ x ∉ (feedOneDeer jm useTm n dm tm pool r i).2.2.1) := by
  by_cases h : pool.length = 0
  · have hpool_nil : pool = [] := List.length_eq_zero.mp h
    subst hpool_nil
    rw [feedOneDeer_nil_pool]
    refine ⟨rfl, rfl, rfl, ?_, fun _ => rfl, rfl, List.nodup_nil, ?_,
      List.nodup_nil, ?_⟩
    · intro h0
      simp at h0
    · intro x hx
      exact absurd hx (List.not_mem_nil x)
    · intro x hx
      exact absurd hx (List.not_mem_nil x)
  · rw [feedOneDeer_eq jm useTm n dm tm pool r i h]
    have hcand_nodup :
        (((jsShuffle pool r).1).take
          (min (Int.toNat (max 1 ⌊2 + (dm.deers.getD i emptyDeer).stamina / 2 *
            calculateForagingSuccess jm (dm.deers.getD i emptyDeer)
              pool.length n * 3⌋)) pool.length)).Nodup :=
      (List.take_sublist _ _).nodup
        ((jsShuffle_perm pool r).nodup_iff.mpr hp)
    have hcand_sub :
        ∀ x ∈ ((jsShuffle pool r).1).take
          (min (Int.toNat (max 1 ⌊2 + (dm.deers.getD i emptyDeer).stamina / 2 *
            calculateForagingSuccess jm (dm.deers.getD i emptyDeer)
              pool.length n * 3⌋)) pool.length), x ∈ pool := by
      intro x hx
      exact (jsShuffle_perm pool r).mem_iff.mp
        (List.mem_of_mem_take hx)
    obtain ⟨q1, q2, q3, q4, q5⟩ :=
      forageLoop_inv useTm
        (deerMassNeeded jm (dm.deers.getD i emptyDeer))
        (((jsShuffle pool r).1).take
          (min (Int.toNat (max 1 ⌊2 + (dm.deers.getD i emptyDeer).stamina / 2 *
            calculateForagingSuccess jm (dm.deers.getD i emptyDeer)
              pool.length n * 3⌋)) pool.length))
        tm pool 0 [] hp hcand_nodup hcand_sub List.nodup_nil
        (fun x hx => absurd hx (List.not_mem_nil x))
    by_cases hs : (forageLoop useTm
        (deerMassNeeded jm (dm.deers.getD i emptyDeer))
        (((jsShuffle pool r).1).take
          (min (Int.toNat (max 1 ⌊2 + (dm.deers.getD i emptyDeer).stamina / 2 *
            calculateForagingSuccess jm (dm.deers.getD i emptyDeer)
              pool.length n * 3⌋)) pool.length))
        tm pool 0 []).2.2.1 ≥
        deerMassNeeded jm (dm.deers.getD i emptyDeer) *
          survivalThreshold (dm.deers.getD i emptyDeer).hunger
    · rw [if_pos hs]
      refine ⟨rfl, rfl, rfl, fun _ => ⟨fun _ => hs, fun _ => rfl⟩,
        fun h0 => absurd h0 h, rfl, q1, q2, q3, ?_⟩
      intro x hx
      refine ⟨?_, q4 x hx⟩
      rcases q5 x hx with hc | hc
      · exact absurd hc (List.not_mem_nil x)
      · exact hc
    · rw [if_neg hs]
      refine ⟨rfl, rfl, rfl, ?_, fun h0 => absurd h0 h, rfl, q1, q2, q3, ?_⟩
      · intro _
        constructor
        · intro hc
          simp at hc
        · intro hc
          exact absurd hc hs
      · intro x hx
        refine ⟨?_, q4 x hx⟩
        rcases q5 x hx with hc | hc
        · exact absurd hc (List.not_mem_nil x)
        · exact hc

/-! ## The feeding outer loop: depletion and per-deer outcomes -/

theorem feedLoop_pools (jm : JsMath) (useTm : Bool) (n : ℕ) (L : List ℕ)
    (dm : DeerMgr) (tm : TreeMgr) (pool : List ℕ) (r : Rng)
    (hp : pool.Nodup) :
    (feedLoop jm useTm n L dm tm pool r).2.2.1.Nodup ∧
    (∀ x ∈ (feedLoop jm useTm n L dm tm pool r).2.2.1, x ∈ pool) ∧
    (feedLoop jm useTm n L dm tm pool r).2.2.2.2.2.Nodup ∧
    (∀ x ∈ (feedLoop jm useTm n L dm tm pool r).2.2.2.2.2,
      x ∈ pool ∧ x ∉ (feedLoop jm useTm n L dm tm pool r).2.2.1) := by
  induction L generalizing dm tm pool r with
  | nil =>
    exact ⟨hp, fun x hx => hx, List.nodup_nil,
      fun x hx => absurd hx (List.not_mem_nil x)⟩
  | cons i rest ih =>
    obtain ⟨-, -, -, -, -, -, foN, foSub, foLogN, foLog⟩ :=
      feedOneDeer_spec jm useTm n dm tm pool r i hp
    obtain ⟨p1, p2, p3, p4⟩ :=
      ih (feedOneDeer jm useTm n dm tm pool r i).1
        (feedOneDeer jm useTm n dm tm pool r i).2.1
        (feedOneDeer jm useTm n dm tm pool r i).2.2.1
        (feedOneDeer jm useTm n dm tm pool r i).2.2.2.1 foN
    simp only [feedLoop]
    refine ⟨p1, ?_, ?_, ?_⟩
    · intro x hx
      exact foSub x (p2 x hx)
    · rw [List.nodup_append]
      refine ⟨foLogN, p3, ?_⟩
      intro x hx hx2
      exact (foLog x hx).2 (p4 x hx2).1
    · intro x hx
      rcases List.mem_append.mp hx with h | h
      · obtain ⟨hxp, hxnp⟩ := foLog x h
        refine ⟨hxp, fun hc => hxnp (p2 x hc)⟩
      · obtain ⟨hxp, hxnp⟩ := p4 x h
        exact ⟨foSub x hxp, hxnp⟩

theorem feedLoop_events (jm : JsMath) (useTm : Bool) (n : ℕ) (L : List ℕ)
    (dm : DeerMgr) (tm : TreeMgr) (pool : List ℕ) (r : Rng)
    (hp : pool.Nodup) (hL : L.Nodup)
    (halive : ∀ i ∈ L, i < dm.deers.length ∧
      (dm.deers.getD i emptyDeer).isAlive = true) :
    (feedLoop jm useTm n L dm tm pool r).2.2.2.2.1.map FeedEvent.idx = L ∧
    (∀ e ∈ (feedLoop jm useTm n L dm tm pool r).2.2.2.2.1,
      e.hunger = (dm.deers.getD e.idx emptyDeer).hunger ∧
      (0 < e.poolLen → (e.survived = true ↔
        e.massNeeded * survivalThreshold e.hunger ≤ e.massConsumed)) ∧
      (e.poolLen = 0 → e.survived = false) ∧
      ((feedLoop jm useTm n L dm tm pool r).1.deers.getD e.idx
        emptyDeer).isAlive = e.survived) ∧
    (feedLoop jm useTm n L dm tm pool r).1.deers.length = dm.deers.length ∧
    (∀ j, j ∉ L → (feedLoop jm useTm n L dm tm pool r).1.deers.getD j
      emptyDeer = dm.deers.getD j emptyDeer) ∧
    (feedLoop jm useTm n L dm tm pool r).1.starvationDeath =
      dm.starvationDeath +
        ((feedLoop jm useTm n L dm tm pool r).2.2.2.2.1.filter
          (fun e => ! e.survived)).length ∧
    (feedLoop jm useTm n L dm tm pool r).1.ageDeath = dm.ageDeath ∧
    (feedLoop jm useTm n L dm tm pool r).1.predationDeath =
      dm.predationDeath ∧
    (feedLoop jm useTm n L dm tm pool r).1.unknownDeath = dm.unknownDeath := by
  induction L generalizing dm tm pool r with
  | nil =>
    exact ⟨rfl, fun e he => absurd he (List.not_mem_nil e), rfl,
      fun j _ => rfl, rfl, rfl, rfl, rfl⟩
  | cons i rest ih =>
    obtain ⟨hiNotRest, hrestN⟩ := List.nodup_cons.mp hL
    obtain ⟨hilen, hialive⟩ := halive i (List.mem_cons_self i rest)
    obtain ⟨e_idx, e_plen, e_hunger, e_iff, e_p0, e_dm, foN, foSub, -, -⟩ :=
      feedOneDeer_spec jm useTm n dm tm pool r i hp
    have hdm1_len : (feedOneDeer jm useTm n dm tm pool r i).1.deers.length =
        dm.deers.length := by
      rw [e_dm]
      by_cases hs : (feedOneDeer jm useTm n dm tm pool r i).2.2.2.2.1.survived = true
      · rw [if_pos hs]
      · rw [if_neg hs]
        exact killDeer_deers_length dm i "starvation"
    have hdm1_ne : ∀ j, j ≠ i →
        (feedOneDeer jm useTm n dm tm pool r i).1.deers.getD j emptyDeer =
          dm.deers.getD j emptyDeer := by
      intro j hj
      rw [e_dm]
      by_cases hs : (feedOneDeer jm useTm n dm tm pool r i).2.2.2.2.1.survived = true
      · rw [if_pos hs]
      · rw [if_neg hs]
        exact killDeer_getD_ne dm i "starvation" j hj
    have hdm1_self :
        ((feedOneDeer jm useTm n dm tm pool r i).1.deers.getD i
          emptyDeer).isAlive =
          (feedOneDeer jm useTm n dm tm pool r i).2.2.2.2.1.survived := by
      rw [e_dm]
      by_cases hs : (feedOneDeer jm useTm n dm tm pool r i).2.2.2.2.1.survived = true
      · rw [if_pos hs, hs, hialive]
      · rw [if_neg hs,
          killDeer_getD_self_dead dm i "starvation" hilen hialive,
          Bool.eq_false_iff.mpr hs]
        decide
    have hdm1_cnt : (feedOneDeer jm useTm n dm tm pool r i).1.starvationDeath =
        dm.starvationDeath +
          (if (feedOneDeer jm useTm n dm tm pool r i).2.2.2.2.1.survived = true
           then 0 else 1) ∧
        (feedOneDeer jm useTm n dm tm pool r i).1.ageDeath = dm.ageDeath ∧
        (feedOneDeer jm useTm n dm tm pool r i).1.predationDeath =
          dm.predationDeath ∧
        (feedOneDeer jm useTm n dm tm pool r i).1.unknownDeath =
          dm.unknownDeath := by
      rw [e_dm]
      by_cases hs : (feedOneDeer jm useTm n dm tm pool r i).2.2.2.2.1.survived = true
      · rw [if_pos hs, if_pos hs]
        exact ⟨rfl, rfl, rfl, rfl⟩
      · rw [if_neg hs, if_neg hs]
        obtain ⟨c1, c2, c3, c4⟩ := killDeer_starvation_counters dm i hilen hialive
        exact ⟨c1, c2, c3, c4⟩
    have halive1 : ∀ j ∈ rest,
        j < (feedOneDeer jm useTm n dm tm pool r i).1.deers.length ∧
        ((feedOneDeer jm useTm n dm tm pool r i).1.deers.getD j
          emptyDeer).isAlive = true := by
      intro j hj
      have hji : j ≠ i := by
        rintro rfl
        exact hiNotRest hj
      obtain ⟨h1, h2⟩ := halive j (List.mem_cons_of_mem i hj)
      rw [hdm1_len, hdm1_ne j hji]
      exact ⟨h1, h2⟩
    obtain ⟨ihmap, ihev, ihlen, ihne, ihstarv, ihage, ihpred, ihunk⟩ :=
      ih (feedOneDeer jm useTm n dm tm pool r i).1
        (feedOneDeer jm useTm n dm tm pool r i).2.1
        (feedOneDeer jm useTm n dm tm pool r i).2.2.1
        (feedOneDeer jm useTm n dm tm pool r i).2.2.2.1 foN hrestN halive1
    simp only [feedLoop]
    refine ⟨?_, ?_, ?_, ?_, ?_, ?_, ?_, ?_⟩
    · rw [List.map_cons, ihmap, e_idx]
    · intro e he
      rcases List.mem_cons.mp he with he1 | he2
      · subst he1
        refine ⟨by rw [e_idx, e_hunger], e_iff, e_p0, ?_⟩
        rw [e_idx, ihne i hiNotRest, hdm1_self]
      · obtain ⟨ih1, ih2, ih3, ih4⟩ := ihev e he2
        have heidx : e.idx ∈ rest := by
          rw [← ihmap]
          exact List.mem_map_of_mem FeedEvent.idx he2
        have hne_i : e.idx ≠ i := by
          rintro hcne
          rw [hcne] at heidx
          exact hiNotRest heidx
        refine ⟨?_, ih2, ih3, ih4⟩
        rw [ih1, hdm1_ne e.idx hne_i]
    · rw [ihlen, hdm1_len]
    · intro j hj
      have hj1 : j ≠ i := fun hc => hj (hc ▸ List.mem_cons_self i rest)
      have hj2 : j ∉ rest := fun hc => hj (List.mem_cons_of_mem i hc)
      rw [ihne j hj2, hdm1_ne j hj1]
    · rw [ihstarv, hdm1_cnt.1, List.filter_cons]
      by_cases hs : (feedOneDeer jm useTm n dm tm pool r i).2.2.2.2.1.survived = true
      · rw [if_pos hs]
        simp only [hs, Bool.not_true, Bool.false_eq_true, if_false]
        omega
      · rw [if_neg hs]
        have hs' : (feedOneDeer jm useTm n dm tm pool r i).2.2.2.2.1.survived = false :=
          Bool.eq_false_iff.mpr hs
        simp only [hs', Bool.not_false, eq_self_iff_true, if_true,
          List.length_cons]
        omega
    · rw [ihage, hdm1_cnt.2.1]
    · rw [ihpred, hdm1_cnt.2.2.1]
    · rw [ihunk, hdm1_cnt.2.2.2]

/-! ## `processFeeding` projections and the survival-threshold claim -/

theorem processFeeding_dm (jm : JsMath) (dm : DeerMgr) (tm : TreeMgr)
    (ea : ℚ) (useTm : Bool) (r : Rng) :
    (dm.processFeeding jm tm ea useTm r).dm =
      (feedLoop jm useTm (edibleIndices tm.trees ea).length
        (sortedDeerIndices dm.deers) dm tm (edibleIndices tm.trees ea) r).1 :=
  rfl

theorem processFeeding_events (jm : JsMath) (dm : DeerMgr) (tm : TreeMgr)
    (ea : ℚ) (useTm : Bool) (r : Rng) :
    (dm.processFeeding jm tm ea useTm r).events =
      (feedLoop jm useTm (edibleIndices tm.trees ea).length
        (sortedDeerIndices dm.deers) dm tm
        (edibleIndices tm.trees ea) r).2.2.2.2.1 :=
  rfl

theorem processFeeding_consumed (jm : JsMath) (dm : DeerMgr) (tm : TreeMgr)
    (ea : ℚ) (useTm : Bool) (r : Rng) :
    (dm.processFeeding jm tm ea useTm r).consumed =
      (feedLoop jm useTm (edibleIndices tm.trees ea).length
        (sortedDeerIndices dm.deers) dm tm
        (edibleIndices tm.trees ea) r).2.2.2.2.2 :=
  rfl

/-- **C3** (amended): in `processFeeding`, a deer that found at least one
edible plant survives the tick iff its mass consumed is at least
`massNeeded × survivalThreshold`, where the threshold is determined by
the deer's hunger factor (0.6 for hunger ≤ 3, 0.7 for 3 < hunger ≤ 7,
0.8 above) — not by the edible-plant-to-herbivore ratio; a deer that
fails the test is killed with cause starvation, and the starvation
counter counts exactly the failed deer. -/
theorem C3_survival_iff_hunger_threshold (jm : JsMath) (dm : DeerMgr)
    (tm : TreeMgr) (ea : ℚ) (useTm : Bool) (r : Rng) :
    (∀ e ∈ (dm.processFeeding jm tm ea useTm r).events,
      e.hunger = (dm.deers.getD e.idx emptyDeer).hunger ∧
      (0 < e.poolLen →
        (e.survived = true ↔
          e.massNeeded * survivalThreshold e.hunger ≤ e.massConsumed)) ∧
      ((dm.processFeeding jm tm ea useTm r).dm.deers.getD e.idx
        emptyDeer).isAlive = e.survived) ∧
    (dm.processFeeding jm tm ea useTm r).dm.starvationDeath =
      dm.starvationDeath +
        ((dm.processFeeding jm tm ea useTm r).events.filter
          (fun e => ! e.survived)).length := by
  obtain ⟨-, hev, -, -, hstarv, -, -, -⟩ :=
    feedLoop_events jm useTm (edibleIndices tm.trees ea).length
      (sortedDeerIndices dm.deers) dm tm (edibleIndices tm.trees ea) r
      (edibleIndices_nodup tm.trees ea) (sortedDeerIndices_nodup dm.deers)
      (fun i hi => mem_sortedDeerIndices.mp hi)
  rw [processFeeding_dm, processFeeding_events]
  refine ⟨?_, hstarv⟩
  intro e he
  obtain ⟨h1, h2, _, h4⟩ := hev e he
  exact ⟨h1, h2, h4⟩

/-- The claim's reading of the survival rule: one threshold function of
the initial edible-plant-to-herbivore ratio (the same for every deer
facing the same ratio) decides survival. -/
def scarcityThresholdClaim : Prop :=
  ∃ thr : ℚ → ℚ,
    ∀ (jm : JsMath) (dm : DeerMgr) (tm : TreeMgr) (ea : ℚ) (useTm : Bool)
      (r : Rng) (e : FeedEvent),
      e ∈ (dm.processFeeding jm tm ea useTm r).events →
      0 < e.poolLen →
      (e.survived = true ↔
        e.massNeeded *
          thr (((edibleIndices tm.trees ea).length : ℚ) /
            ((dm.deers.filter Deer.isAlive).length : ℚ)) ≤
        e.massConsumed)

/-- Run A for the C3 counterexample: one deer with hunger 1.25
(threshold 0.6) and one edible tree holding 65% of its requirement. -/
def dmC3A : DeerMgr := ⟨[⟨1, 3, 21, 1.25, 4⟩], 0, 0, 0, 0⟩

/-- Tree state for run A: a single edible tree of mass `0.08125 =
0.65 × 0.125`. -/
def tmC3A : TreeMgr := ⟨[⟨1, 2.5, 1, 0.025, 0.08125⟩], 1, false, 0, 0, 0, 0, 0, 0⟩

/-- Run B for the C3 counterexample: one deer with hunger 5
(threshold 0.7) and one edible tree holding 65% of its requirement. -/
def dmC3B : DeerMgr := ⟨[⟨1, 3, 21, 5, 4⟩], 0, 0, 0, 0⟩

/-- Tree state for run B: a single edible tree of mass `0.65`. -/
def tmC3B : TreeMgr := ⟨[⟨1, 2.5, 1, 0.025, 0.65⟩], 1, false, 0, 0, 0, 0, 0, 0⟩

/-- **C3 counterexample**: no threshold-as-a-function-of-the-ratio
explains the survival outcomes.  Both runs have ratio 1 (one edible
tree, one deer) and both deer consume exactly 65% of their requirement,
yet the hunger-1.25 deer survives while the hunger-5 deer starves. -/
theorem C3_counterexample : ¬ scarcityThresholdClaim := by
  rintro ⟨thr, h⟩
  have hA := h jmExact dmC3A tmC3A 3 true []
    ⟨0, 1, 1.25, 0.125, 0.08125, true⟩ (by decide) (by decide)
  have hB := h jmExact dmC3B tmC3B 3 true []
    ⟨0, 1, 5, 1, 0.65, false⟩ (by decide) (by decide)
  have e1 : (edibleIndices tmC3A.trees 3).length = 1 := by decide
  have e2 : (dmC3A.deers.filter Deer.isAlive).length = 1 := by decide
  have e3 : (edibleIndices tmC3B.trees 3).length = 1 := by decide
  have e4 : (dmC3B.deers.filter Deer.isAlive).length = 1 := by decide
  rw [e1, e2] at hA
  rw [e3, e4] at hB
  have hxA : (0.125 : ℚ) * thr ((1 : ℚ) / (1 : ℚ)) ≤ 0.08125 := by
    have := hA.mp rfl
    simpa using this
  have hxB : ¬ ((1 : ℚ) * thr ((1 : ℚ) / (1 : ℚ)) ≤ 0.65) := by
    intro hc
    have := hB.mpr (by simpa using hc)
    exact Bool.false_ne_true this
  apply hxB
  rw [one_mul]
  nlinarith [hxA]

/-! ## The capture loop: depletion invariants -/

theorem nodup_not_mem_eraseIdx {l : List α} {k : ℕ} (d : α)
    (hk : k < l.length) (hnd : l.Nodup) : l.getD k d ∉ l.eraseIdx k := by
  intro hmem
  rw [List.getD_eq_getElem _ _ hk] at hmem
  obtain ⟨i, hilen, hik, hival⟩ := List.mem_eraseIdx_iff_getElem.mp hmem
  exact hik (List.Nodup.getElem_inj_iff hnd |>.mp hival)

theorem pickIdx_lt (len : ℕ) (d : ℚ) (h : 0 < len) : pickIdx len d < len := by
  unfold pickIdx
  have : len - 1 < len := Nat.sub_lt h (by decide)
  exact lt_of_le_of_lt (min_le_right _ _) this

theorem captureLoop_spec (needed : ℚ) (deers : List Deer) (fuel : ℕ)
    (pool : List ℕ) (mc : ℚ) (killed : List ℕ) (r : Rng)
    (hp : pool.Nodup) (hk : killed.Nodup)
    (hdisj : ∀ x ∈ killed, x ∉ pool) :
    (captureLoop needed deers fuel pool mc killed r).1.Nodup ∧
    (∀ x ∈ (captureLoop needed deers fuel pool mc killed r).1, x ∈ pool) ∧
    (captureLoop needed deers fuel pool mc killed r).2.2.1.Nodup ∧
    (∀ x ∈ (captureLoop needed deers fuel pool mc killed r).2.2.1,
      (x ∈ killed ∨ x ∈ pool) ∧
      x ∉ (captureLoop needed deers fuel pool mc killed r).1) ∧
    (captureLoop needed deers fuel pool mc killed r).2.2.1.length ≤
      killed.length + fuel := by
  induction fuel generalizing pool mc killed r with
  | zero =>
    exact ⟨hp, fun x hx => hx, hk, fun x hx => ⟨Or.inl hx, hdisj x hx⟩,
      Nat.le_refl _⟩
  | succ fuel ih =>
    by_cases h0 : pool.length = 0
    · simp only [captureLoop, if_pos h0]
      exact ⟨hp, fun x hx => hx, hk, fun x hx => ⟨Or.inl hx, hdisj x hx⟩,
        Nat.le_add_right _ _⟩
    · simp only [captureLoop, if_neg h0]
      have hlen : 0 < pool.length := Nat.pos_of_ne_zero h0
      have hklt : pickIdx pool.length (randNext r).1 < pool.length :=
        pickIdx_lt _ _ hlen
      have hcap_mem : pool.getD (pickIdx pool.length (randNext r).1) 0 ∈ pool := by
        rw [List.getD_eq_getElem _ _ hklt]
        exact List.getElem_mem hklt
      have hcap_out :
          pool.getD (pickIdx pool.length (randNext r).1) 0 ∉
            pool.eraseIdx (pickIdx pool.length (randNext r).1) :=
        nodup_not_mem_eraseIdx 0 hklt hp
      have herase_sub : ∀ x ∈ pool.eraseIdx (pickIdx pool.length (randNext r).1),
          x ∈ pool := fun x hx =>
        (List.eraseIdx_sublist pool (pickIdx pool.length (randNext r).1)).mem hx
      have herase_nd : (pool.eraseIdx (pickIdx pool.length (randNext r).1)).Nodup :=
        (List.eraseIdx_sublist pool _).nodup hp
      have hkilled' : (killed ++ [pool.getD (pickIdx pool.length (randNext r).1) 0]).Nodup := by
        rw [List.nodup_append]
        refine ⟨hk, List.nodup_singleton _, ?_⟩
        intro x hx hx2
        rw [List.mem_singleton] at hx2
        subst hx2
        exact hdisj _ hx hcap_mem
      have hdisj' : ∀ x ∈ killed ++ [pool.getD (pickIdx pool.length (randNext r).1) 0],
          x ∉ pool.eraseIdx (pickIdx pool.length (randNext r).1) := by
        intro x hx hx2
        rcases List.mem_append.mp hx with h | h
        · exact hdisj x h (herase_sub x hx2)
        · rw [List.mem_singleton] at h
          subst h
          exact hcap_out hx2
      by_cases hstop : mc + min (deers.getD
          (pool.getD (pickIdx pool.length (randNext r).1) 0) emptyDeer).mass
          (needed - mc) ≥ needed
      · rw [if_pos hstop]
        refine ⟨herase_nd, herase_sub, hkilled', ?_, ?_⟩
        · intro x hx
          rcases List.mem_append.mp hx with h | h
          · exact ⟨Or.inl h, fun hc => hdisj x h (herase_sub x hc)⟩
          · rw [List.mem_singleton] at h
            subst h
            exact ⟨Or.inr hcap_mem, hcap_out⟩
        · rw [List.length_append, List.length_singleton]
          omega
      · rw [if_neg hstop]
        obtain ⟨p1, p2, p3, p4, p5⟩ :=
          ih (pool.eraseIdx (pickIdx pool.length (randNext r).1))
            (mc + min (deers.getD
              (pool.getD (pickIdx pool.length (randNext r).1) 0) emptyDeer).mass
              (needed - mc))
            (killed ++ [pool.getD (pickIdx pool.length (randNext r).1) 0])
            (randNext r).2 herase_nd hkilled' hdisj'
        refine ⟨p1, fun x hx => herase_sub x (p2 x hx), p3, ?_, ?_⟩
        · intro x hx
          obtain ⟨hor, hnp⟩ := p4 x hx
          refine ⟨?_, hnp⟩
          rcases hor with h | h
          · rcases List.mem_append.mp h with h' | h'
            · exact Or.inl h'
            · rw [List.mem_singleton] at h'
              subst h'
              exact Or.inr hcap_mem
          · exact Or.inr (herase_sub x h)
        · rw [List.length_append, List.length_singleton] at p5
          omega

/-! ## Per-wolf characterization of `huntOneWolf` -/

/-- Unfolded form of one wolf's turn when the pool is non-empty. -/
theorem huntOneWolf_eq (jm : JsMath) (n : ℕ) (wm : WolfMgr) (dm : DeerMgr)
    (pool : List ℕ) (r : Rng) (i : ℕ) (h : ¬ pool.length = 0) :
    huntOneWolf jm n wm dm pool r i =
      (let wolf := wm.wolves.getD i emptyWolf
       let massNeeded := wolfMassNeeded wolf
       let huntingSuccess := calculateHuntingSuccess jm wm.wolves wolf
         pool.length n
       let successRate := min 0.4 huntingSuccess +
         (randNext r).1 * (huntingSuccess - min 0.4 huntingSuccess)
       let deerCaptured :=
         min (min (max 1 (Int.toNat ⌈wolf.hunger * successRate⌉)) 2) pool.length
       let CL := captureLoop massNeeded dm.deers deerCaptured pool 0 []
         (randNext r).2
       let dm' := CL.2.2.1.foldl (fun m j => m.killDeer j "predation") dm
       if CL.2.1 ≥ massNeeded * 0.6 then
         (wm, dm', CL.1, CL.2.2.2,
          ⟨i, pool.length, massNeeded, CL.2.1, CL.2.2.1, true⟩)
       else
         (wm.killWolf i "starvation", dm', CL.1, CL.2.2.2,
          ⟨i, pool.length, massNeeded, CL.2.1, CL.2.2.1, false⟩)) := by
  unfold huntOneWolf
  rw [if_neg h]

/-- One wolf's turn with an exhausted pool: killed outright. -/
theorem huntOneWolf_nil_pool (jm : JsMath) (n : ℕ) (wm : WolfMgr)
    (dm : DeerMgr) (r : Rng) (i : ℕ) :
    huntOneWolf jm n wm dm [] r i =
      (wm.killWolf i "starvation", dm, [], r,
        ⟨i, 0, wolfMassNeeded (wm.wolves.getD i emptyWolf), 0, [], false⟩) :=
  rfl

/-- Spec of one wolf's turn: recorded event fields, capture bounds, the
60% survival rule, manager updates, and the depletion invariants. -/
theorem huntOneWolf_spec (jm : JsMath) (n : ℕ) (wm : WolfMgr) (dm : DeerMgr)
    (pool : List ℕ) (r : Rng) (i : ℕ) (hp : pool.Nodup) :
    (huntOneWolf jm n wm dm pool r i).2.2.2.2.idx = i ∧
    (huntOneWolf jm n wm dm pool r i).2.2.2.2.availAtTurn = pool.length ∧
    (huntOneWolf jm n wm dm pool r i).2.2.2.2.massNeeded =
      wolfMassNeeded (wm.wolves.getD i emptyWolf) ∧
    (huntOneWolf jm n wm dm pool r i).2.2.2.2.killed.length ≤ 2 ∧
    (huntOneWolf jm n wm dm pool r i).2.2.2.2.killed.length ≤
      (huntOneWolf jm n wm dm pool r i).2.2.2.2.availAtTurn ∧
    (0 < (huntOneWolf jm n wm dm pool r i).2.2.2.2.availAtTurn →
      ((huntOneWolf jm n wm dm pool r i).2.2.2.2.survived = true ↔
        (huntOneWolf jm n wm dm pool r i).2.2.2.2.massNeeded * 0.6 ≤
          (huntOneWolf jm n wm dm pool r i).2.2.2.2.massConsumed)) ∧
    ((huntOneWolf jm n wm dm pool r i).2.2.2.2.availAtTurn = 0 →
      (huntOneWolf jm n wm dm pool r i).2.2.2.2.survived = false ∧
      (huntOneWolf jm n wm dm pool r i).2.2.2.2.massConsumed = 0) ∧
    (huntOneWolf jm n wm dm pool r i).1 =
      (if (huntOneWolf jm n wm dm pool r i).2.2.2.2.survived then wm
       else wm.killWolf i "starvation") ∧
    (huntOneWolf jm n wm dm pool r i).2.1 =
      (huntOneWolf jm n wm dm pool r i).2.2.2.2.killed.foldl
        (fun m j => m.killDeer j "predation") dm ∧
    (huntOneWolf jm n wm dm pool r i).2.2.1.Nodup ∧
    (∀ x ∈ (huntOneWolf jm n wm dm pool r i).2.2.1, x ∈ pool) ∧
    (huntOneWolf jm n wm dm pool r i).2.2.2.2.killed.Nodup ∧
    (∀ x ∈ (huntOneWolf jm n wm dm pool r i).2.2.2.2.killed,
      x ∈ pool ∧ x ∉ (huntOneWolf jm n wm dm pool r i).2.2.1) := by
  by_cases h : pool.length = 0
  · have hnil : pool = [] := List.length_eq_zero.mp h
    subst hnil
    rw [huntOneWolf_nil_pool]
    refine ⟨rfl, rfl, rfl, ?_, ?_, ?_, fun _ => ⟨rfl, rfl⟩,
      rfl, rfl, List.nodup_nil, fun x hx => hx,
      List.nodup_nil, fun x hx => absurd hx (List.not_mem_nil x)⟩
    · simp
    · simp
    · intro h0
      simp at h0
  · rw [huntOneWolf_eq jm n wm dm pool r i h]
    obtain ⟨c1, c2, c3, c4, c5⟩ :=
      captureLoop_spec (wolfMassNeeded (wm.wolves.getD i emptyWolf)) dm.deers
        (min (min (max 1 (Int.toNat ⌈(wm.wolves.getD i emptyWolf).hunger *
          (min 0.4 (calculateHuntingSuccess jm wm.wolves
              (wm.wolves.getD i emptyWolf) pool.length n) +
            (randNext r).1 * (calculateHuntingSuccess jm wm.wolves
              (wm.wolves.getD i emptyWolf) pool.length n -
              min 0.4 (calculateHuntingSuccess jm wm.wolves
                (wm.wolves.getD i emptyWolf) pool.length n)))⌉)) 2)
          pool.length)
        pool 0 [] (randNext r).2 hp List.nodup_nil
        (fun x hx => absurd hx (List.not_mem_nil x))
    have hcap_le2 : (captureLoop (wolfMassNeeded (wm.wolves.getD i emptyWolf))
        dm.deers
        (min (min (max 1 (Int.toNat ⌈(wm.wolves.getD i emptyWolf).hunger *
          (min 0.4 (calculateHuntingSuccess jm wm.wolves
              (wm.wolves.getD i emptyWolf) pool.length n) +
            (randNext r).1 * (calculateHuntingSuccess jm wm.wolves
              (wm.wolves.getD i emptyWolf) pool.length n -
              min 0.4 (calculateHuntingSuccess jm wm.wolves
                (wm.wolves.getD i emptyWolf) pool.length n)))⌉)) 2)
          pool.length)
        pool 0 [] (randNext r).2).2.2.1.length ≤ 2 := by
      refine le_trans c5 ?_
      simp only [List.length_nil, Nat.zero_add]
      exact le_trans (min_le_left _ _) (min_le_right _ _)
    have hcap_lepool : (captureLoop (wolfMassNeeded (wm.wolves.getD i emptyWolf))
        dm.deers
        (min (min (max 1 (Int.toNat ⌈(wm.wolves.getD i emptyWolf).hunger *
          (min 0.4 (calculateHuntingSuccess jm wm.wolves
              (wm.wolves.getD i emptyWolf) pool.length n) +
            (randNext r).1 * (calculateHuntingSuccess jm wm.wolves
              (wm.wolves.getD i emptyWolf) pool.length n -
              min 0.4 (calculateHuntingSuccess jm wm.wolves
                (wm.wolves.getD i emptyWolf) pool.length n)))⌉)) 2)
          pool.length)
        pool 0 [] (randNext r).2).2.2.1.length ≤ pool.length := by
      refine le_trans c5 ?_
      simp only [List.length_nil, Nat.zero_add]
      exact min_le_right _ _
    by_cases hs : (captureLoop (wolfMassNeeded (wm.wolves.getD i emptyWolf))
        dm.deers
        (min (min (max 1 (Int.toNat ⌈(wm.wolves.getD i emptyWolf).hunger *
          (min 0.4 (calculateHuntingSuccess jm wm.wolves
              (wm.wolves.getD i emptyWolf) pool.length n) +
            (randNext r).1 * (calculateHuntingSuccess jm wm.wolves
              (wm.wolves.getD i emptyWolf) pool.length n -
              min 0.4 (calculateHuntingSuccess jm wm.wolves
                (wm.wolves.getD i emptyWolf) pool.length n)))⌉)) 2)
          pool.length)
        pool 0 [] (randNext r).2).2.1 ≥
        wolfMassNeeded (wm.wolves.getD i emptyWolf) * 0.6
    · rw [if_pos hs]
      refine ⟨rfl, rfl, rfl, hcap_le2, hcap_lepool,
        fun _ => ⟨fun _ => hs, fun _ => rfl⟩, fun h0 => absurd h0 h,
        rfl, rfl, c1, c2, c3, ?_⟩
      intro x hx
      obtain ⟨hor, hnp⟩ := c4 x hx
      refine ⟨?_, hnp⟩
      rcases hor with hk | hk
      · exact absurd hk (List.not_mem_nil x)
      · exact hk
    · rw [if_neg hs]
      refine ⟨rfl, rfl, rfl, hcap_le2, hcap_lepool, ?_,
        fun h0 => absurd h0 h, rfl, rfl, c1, c2, c3, ?_⟩
      · intro _
        constructor
        · intro hc
          simp at hc
        · intro hc
          exact absurd hc hs
      · intro x hx
        obtain ⟨hor, hnp⟩ := c4 x hx
        refine ⟨?_, hnp⟩
        rcases hor with hk | hk
        · exact absurd hk (List.not_mem_nil x)
        · exact hk

/-! ## The hunting outer loop: depletion and per-wolf outcomes -/

theorem huntLoop_pools (jm : JsMath) (n : ℕ) (L : List ℕ) (wm : WolfMgr)
    (dm : DeerMgr) (pool : List ℕ) (r : Rng) (hp : pool.Nodup) :
    (huntLoop jm n L wm dm pool r).2.2.1.Nodup ∧
    (∀ x ∈ (huntLoop jm n L wm dm pool r).2.2.1, x ∈ pool) ∧
    (((huntLoop jm n L wm dm pool r).2.2.2.2.map HuntEvent.killed).flatten).Nodup ∧
    (∀ x ∈ ((huntLoop jm n L wm dm pool r).2.2.2.2.map HuntEvent.killed).flatten,
      x ∈ pool ∧ x ∉ (huntLoop jm n L wm dm pool r).2.2.1) := by
  induction L generalizing wm dm pool r with
  | nil =>
    exact ⟨hp, fun x hx => hx, List.nodup_nil,
      fun x hx => absurd hx (List.not_mem_nil x)⟩
  | cons i rest ih =>
    obtain ⟨-, -, -, -, -, -, -, -, -, hoN, hoSub, hoKN, hoK⟩ :=
      huntOneWolf_spec jm n wm dm pool r i hp
    obtain ⟨p1, p2, p3, p4⟩ :=
      ih (huntOneWolf jm n wm dm pool r i).1
        (huntOneWolf jm n wm dm pool r i).2.1
        (huntOneWolf jm n wm dm pool r i).2.2.1
        (huntOneWolf jm n wm dm pool r i).2.2.2.1 hoN
    simp only [huntLoop, List.map_cons, List.flatten_cons]
    refine ⟨p1, ?_, ?_, ?_⟩
    · intro x hx
      exact hoSub x (p2 x hx)
    · rw [List.nodup_append]
      refine ⟨hoKN, p3, ?_⟩
      intro x hx hx2
      exact (hoK x hx).2 (p4 x hx2).1
    · intro x hx
      rcases List.mem_append.mp hx with h | h
      · obtain ⟨hxp, hxnp⟩ := hoK x h
        exact ⟨hxp, fun hc => hxnp (p2 x hc)⟩
      · obtain ⟨hxp, hxnp⟩ := p4 x h
        exact ⟨hoSub x hxp, hxnp⟩

theorem huntLoop_events (jm : JsMath) (n : ℕ) (L : List ℕ) (wm : WolfMgr)
    (dm : DeerMgr) (pool : List ℕ) (r : Rng)
    (hp : pool.Nodup) (hL : L.Nodup)
    (halive : ∀ i ∈ L, i < wm.wolves.length ∧
      (wm.wolves.getD i emptyWolf).isAlive = true) :
    (huntLoop jm n L wm dm pool r).2.2.2.2.map HuntEvent.idx = L ∧
    (∀ e ∈ (huntLoop jm n L wm dm pool r).2.2.2.2,
      e.massNeeded = wolfMassNeeded (wm.wolves.getD e.idx emptyWolf) ∧
      e.killed.length ≤ 2 ∧
      e.killed.length ≤ e.availAtTurn ∧
      (0 < e.availAtTurn → (e.survived = true ↔
        e.massNeeded * 0.6 ≤ e.massConsumed)) ∧
      (e.availAtTurn = 0 → e.survived = false ∧ e.massConsumed = 0) ∧
      ((huntLoop jm n L wm dm pool r).1.wolves.getD e.idx
        emptyWolf).isAlive = e.survived) ∧
    (huntLoop jm n L wm dm pool r).1.wolves.length = wm.wolves.length ∧
    (∀ j, j ∉ L → (huntLoop jm n L wm dm pool r).1.wolves.getD j emptyWolf =
      wm.wolves.getD j emptyWolf) := by
  induction L generalizing wm dm pool r with
  | nil =>
    exact ⟨rfl, fun e he => absurd he (List.not_mem_nil e), rfl, fun j _ => rfl⟩
  | cons i rest ih =>
    obtain ⟨hiNotRest, hrestN⟩ := List.nodup_cons.mp hL
    obtain ⟨hilen, hialive⟩ := halive i (List.mem_cons_self i rest)
    obtain ⟨e_idx, e_avail, e_mn, e_k2, e_kav, e_iff, e_p0, e_wm, e_dm,
      hoN, hoSub, -, -⟩ := huntOneWolf_spec jm n wm dm pool r i hp
    have hwm1_len : (huntOneWolf jm n wm dm pool r i).1.wolves.length =
        wm.wolves.length := by
      rw [e_wm]
      by_cases hs : (huntOneWolf jm n wm dm pool r i).2.2.2.2.survived = true
      · rw [if_pos hs]
      · rw [if_neg hs]
        exact killWolf_wolves_length wm i "starvation"
    have hwm1_ne : ∀ j, j ≠ i →
        (huntOneWolf jm n wm dm pool r i).1.wolves.getD j emptyWolf =
          wm.wolves.getD j emptyWolf := by
      intro j hj
      rw [e_wm]
      by_cases hs : (huntOneWolf jm n wm dm pool r i).2.2.2.2.survived = true
      · rw [if_pos hs]
      · rw [if_neg hs]
        exact killWolf_getD_ne wm i "starvation" j hj
    have hwm1_self :
        ((huntOneWolf jm n wm dm pool r i).1.wolves.getD i
          emptyWolf).isAlive =
          (huntOneWolf jm n wm dm pool r i).2.2.2.2.survived := by
      rw [e_wm]
      by_cases hs : (huntOneWolf jm n wm dm pool r i).2.2.2.2.survived = true
      · rw [if_pos hs, hs, hialive]
      · rw [if_neg hs,
          killWolf_getD_self_dead wm i "starvation" hilen hialive,
          Bool.eq_false_iff.mpr hs]
        decide
    have halive1 : ∀ j ∈ rest,
        j < (huntOneWolf jm n wm dm pool r i).1.wolves.length ∧
        ((huntOneWolf jm n wm dm pool r i).1.wolves.getD j
          emptyWolf).isAlive = true := by
      intro j hj
      have hji : j ≠ i := by
        rintro rfl
        exact hiNotRest hj
      obtain ⟨h1, h2⟩ := halive j (List.mem_cons_of_mem i hj)
      rw [hwm1_len, hwm1_ne j hji]
      exact ⟨h1, h2⟩
    obtain ⟨ihmap, ihev, ihlen, ihne⟩ :=
      ih (huntOneWolf jm n wm dm pool r i).1
        (huntOneWolf jm n wm dm pool r i).2.1
        (huntOneWolf jm n wm dm pool r i).2.2.1
        (huntOneWolf jm n wm dm pool r i).2.2.2.1 hoN hrestN halive1
    simp only [huntLoop]
    refine ⟨?_, ?_, ?_, ?_⟩
    · rw [List.map_cons, ihmap, e_idx]
    · intro e he
      rcases List.mem_cons.mp he with he1 | he2
      · subst he1
        refine ⟨by rw [e_idx, e_mn], e_k2, e_kav, e_iff, e_p0, ?_⟩
        rw [e_idx, ihne i hiNotRest, hwm1_self]
      · obtain ⟨ih1, ih2, ih3, ih4, ih5, ih6⟩ := ihev e he2
        have heidx : e.idx ∈ rest := by
          rw [← ihmap]
          exact List.mem_map_of_mem HuntEvent.idx he2
        have hne_i : e.idx ≠ i := by
          rintro hcne
          rw [hcne] at heidx
          exact hiNotRest heidx
        refine ⟨?_, ih2, ih3, ih4, ih5, ih6⟩
        rw [ih1, hwm1_ne e.idx hne_i]
    · rw [ihlen, hwm1_len]
    · intro j hj
      have hj1 : j ≠ i := fun hc => hj (hc ▸ List.mem_cons_self i rest)
      have hj2 : j ∉ rest := fun hc => hj (List.mem_cons_of_mem i hc)
      rw [ihne j hj2, hwm1_ne j hj1]

/-! ## `processHunting` projections and claims C1, C4 -/

theorem processHunting_pos (jm : JsMath) (wm : WolfMgr) (dm : DeerMgr)
    (r : Rng) (h : ¬ (aliveDeerIndices dm.deers).length = 0) :
    wm.processHunting jm dm r =
      ⟨(huntLoop jm (aliveDeerIndices dm.deers).length
          (sortedWolfIndices wm.wolves) wm dm (aliveDeerIndices dm.deers) r).1,
       (huntLoop jm (aliveDeerIndices dm.deers).length
          (sortedWolfIndices wm.wolves) wm dm (aliveDeerIndices dm.deers) r).2.1,
       (huntLoop jm (aliveDeerIndices dm.deers).length
          (sortedWolfIndices wm.wolves) wm dm
          (aliveDeerIndices dm.deers) r).2.2.2.1,
       (huntLoop jm (aliveDeerIndices dm.deers).length
          (sortedWolfIndices wm.wolves) wm dm
          (aliveDeerIndices dm.deers) r).2.2.2.2⟩ := by
  unfold WolfMgr.processHunting
  rw [if_neg h]

theorem processHunting_zero (jm : JsMath) (wm : WolfMgr) (dm : DeerMgr)
    (r : Rng) (h : (aliveDeerIndices dm.deers).length = 0) :
    wm.processHunting jm dm r =
      ⟨killNonSurvivors (zeroPreySurvivors wm.wolves) wm, dm, r, []⟩ := by
  unfold WolfMgr.processHunting
  rw [if_pos h]

/-- **C1**: within one foraging phase no plant index is consumed twice,
and within one hunting phase no deer index is captured twice: the list
of tree indices removed by `processFeeding`, and the concatenation of
the per-wolf captured-deer index lists of `processHunting`, are
duplicate-free (every removed index is dropped from the candidate pool
of all later consumers in the same tick). -/
theorem C1_no_double_consumption (jm : JsMath) (dm dm₂ : DeerMgr)
    (tm : TreeMgr) (ea : ℚ) (useTm : Bool) (r r₂ : Rng) (wm : WolfMgr) :
    (dm.processFeeding jm tm ea useTm r).consumed.Nodup ∧
    (((wm.processHunting jm dm₂ r₂).events.map
      HuntEvent.killed).flatten).Nodup := by
  constructor
  · rw [processFeeding_consumed]
    exact (feedLoop_pools jm useTm (edibleIndices tm.trees ea).length
      (sortedDeerIndices dm.deers) dm tm (edibleIndices tm.trees ea) r
      (edibleIndices_nodup tm.trees ea)).2.2.1
  · by_cases h : (aliveDeerIndices dm₂.deers).length = 0
    · rw [processHunting_zero jm wm dm₂ r₂ h]
      exact List.nodup_nil
    · rw [processHunting_pos jm wm dm₂ r₂ h]
      exact (huntLoop_pools jm (aliveDeerIndices dm₂.deers).length
        (sortedWolfIndices wm.wolves) wm dm₂ (aliveDeerIndices dm₂.deers) r₂
        (filtIdx_nodup _ _)).2.2.1

/-- **C4**: in `processHunting` with at least one living deer available,
each wolf captures at most 2 deer in the tick and never more than remain
available at its turn, and it survives the tick iff the mass it consumed
is at least 60% of its computed mass requirement, independent of prey
scarcity.  (The hypothesis `hpos` says every living wolf has a positive
mass requirement — true of every wolf the simulation creates, since age,
mass and hunger are positive after growth.) -/
theorem C4_capture_cap_and_sixty_percent (jm : JsMath) (wm : WolfMgr)
    (dm : DeerMgr) (r : Rng) (e : HuntEvent)
    (hprey : (aliveDeerIndices dm.deers).length ≠ 0)
    (hpos : ∀ i, i < wm.wolves.length →
      (wm.wolves.getD i emptyWolf).isAlive = true →
      0 < wolfMassNeeded (wm.wolves.getD i emptyWolf))
    (he : e ∈ (wm.processHunting jm dm r).events) :
    e.killed.length ≤ 2 ∧
    e.killed.length ≤ e.availAtTurn ∧
    (e.survived = true ↔ e.massNeeded * 0.6 ≤ e.massConsumed) ∧
    ((wm.processHunting jm dm r).wm.wolves.getD e.idx emptyWolf).isAlive =
      e.survived := by
  obtain ⟨hmap, hev, -, -⟩ :=
    huntLoop_events jm (aliveDeerIndices dm.deers).length
      (sortedWolfIndices wm.wolves) wm dm (aliveDeerIndices dm.deers) r
      (filtIdx_nodup _ _) (sortedWolfIndices_nodup wm.wolves)
      (fun i hi => mem_sortedWolfIndices.mp hi)
  rw [processHunting_pos jm wm dm r hprey] at he ⊢
  obtain ⟨h1, h2, h3, h4, h5, h6⟩ := hev e he
  refine ⟨h2, h3, ?_, h6⟩
  by_cases h0 : 0 < e.availAtTurn
  · exact h4 h0
  · have hz : e.availAtTurn = 0 := Nat.eq_zero_of_not_pos h0
    obtain ⟨hsurv, hcons⟩ := h5 hz
    have heidx : e.idx ∈ sortedWolfIndices wm.wolves := by
      rw [← hmap]
      exact List.mem_map_of_mem HuntEvent.idx he
    obtain ⟨hlt, hal⟩ := mem_sortedWolfIndices.mp heidx
    have hmn : 0 < e.massNeeded := by
      rw [h1]
      exact hpos e.idx hlt hal
    rw [hsurv, hcons]
    constructor
    · intro hc
      exact absurd hc (by decide)
    · intro hc
      nlinarith

/-! ## The zero-prey special case (claim C2) -/

theorem insertBy_all_false (le : α → α → Bool) (x : α)
    (hx : ∀ y, le x y = false) (l : List α) :
    insertBy le x l = l ++ [x] := by
  induction l with
  | nil => rfl
  | cons y ys ih =>
    unfold insertBy
    rw [hx y]
    simp only [Bool.false_eq_true, if_false]
    rw [ih]
    rfl

theorem sortBy_const_pred (p : α → Bool) (l : List α) :
    ∃ a b, sortBy (fun x _ => p x) l = a ++ b ∧
      (∀ x ∈ a, p x = true) ∧ (∀ x ∈ b, p x = false) := by
  induction l with
  | nil => exact ⟨[], [], rfl, fun x hx => absurd hx (List.not_mem_nil x),
      fun x hx => absurd hx (List.not_mem_nil x)⟩
  | cons x xs ih =>
    obtain ⟨a, b, hab, ha, hb⟩ := ih
    by_cases hx : p x = true
    · refine ⟨x :: a, b, ?_, ?_, hb⟩
      · simp only [sortBy, hab]
        cases a with
        | nil =>
          cases b with
          | nil => rfl
          | cons z zs => simp [insertBy, hx]
        | cons z zs => simp [insertBy, hx]
      · intro y hy
        rcases List.mem_cons.mp hy with h | h
        · subst h; exact hx
        · exact ha y h
    · have hxf : p x = false := Bool.eq_false_iff.mpr hx
      refine ⟨a, b ++ [x], ?_, ha, ?_⟩
      · simp only [sortBy, hab]
        rw [insertBy_all_false _ _ (fun y => hxf) (a ++ b), List.append_assoc]
      · intro y hy
        rcases List.mem_append.mp hy with h | h
        · exact hb y h
        · rw [List.mem_singleton] at h
          subst h
          exact hxf

theorem enum_pair_eq {l : List β} {q : ℕ × β} (d : β) (h : q ∈ l.enum) :
    q.1 < l.length ∧ q.2 = l.getD q.1 d := by
  have hget := List.mem_enum_iff_getElem?.mp h
  have hlt : q.1 < l.length := by
    by_contra hge
    rw [List.getElem?_eq_none (Nat.le_of_not_lt hge)] at hget
    exact Option.noConfusion hget
  refine ⟨hlt, ?_⟩
  rw [List.getD_eq_getElem?_getD, hget, Option.getD_some]

/-- How many wolves the zero-prey rule keeps:
`Math.max(1, Math.floor(aliveCount * 0.3))`. -/
def zeroPreyKeep (n : ℕ) : ℕ := max 1 (Int.toNat ⌊(n : ℚ) * 0.3⌋)

theorem zeroPreyKeep_le (n : ℕ) (hn : 1 ≤ n) : zeroPreyKeep n ≤ n := by
  unfold zeroPreyKeep
  have h1 : ⌊(n : ℚ) * 0.3⌋ ≤ (n : ℤ) := by
    calc ⌊(n : ℚ) * 0.3⌋ ≤ ⌊(n : ℚ)⌋ := by
          apply Int.floor_le_floor
          nlinarith [show (0:ℚ) ≤ (n:ℚ) by positivity]
      _ = (n : ℤ) := Int.floor_natCast n
  have h2 : Int.toNat ⌊(n : ℚ) * 0.3⌋ ≤ n := by
    omega
  omega

theorem zeroPreySurvivors_spec (wolves : List Wolf) :
    (zeroPreySurvivors wolves).Nodup ∧
    (∀ j ∈ zeroPreySurvivors wolves, j < wolves.length ∧
      (wolves.getD j emptyWolf).isAlive = true) ∧
    (zeroPreySurvivors wolves).length =
      min (zeroPreyKeep (wolves.filter Wolf.isAlive).length)
        (wolves.filter Wolf.isAlive).length ∧
    ((∃ j ∈ zeroPreySurvivors wolves,
        ¬ (wolves.getD j emptyWolf).age < 3) →
      ∀ i, i < wolves.length → (wolves.getD i emptyWolf).isAlive = true →
        (wolves.getD i emptyWolf).age < 3 → i ∈ zeroPreySurvivors wolves) := by
  classical
  set alive := wolves.enum.filter (fun p => p.2.isAlive) with halive
  have halive_len : alive.length = (wolves.filter Wolf.isAlive).length := by
    rw [halive]
    exact length_filter_enumFrom Wolf.isAlive wolves 0
  set le : (ℕ × Wolf) → (ℕ × Wolf) → Bool := fun a _ => decide (a.2.age < 3)
    with hle
  have hsorted_perm : List.Perm (sortBy le alive) alive := sortBy_perm le alive
  have halive_nodup : alive.Nodup :=
    (List.filter_sublist _).nodup
      (List.Nodup.of_map Prod.fst (List.nodup_enum_map_fst wolves))
  have hsorted_nodup : (sortBy le alive).Nodup :=
    hsorted_perm.nodup_iff.mpr halive_nodup
  have hmem_sorted : ∀ q ∈ sortBy le alive,
      q ∈ wolves.enum ∧ Wolf.isAlive q.2 = true := by
    intro q hq
    have := hsorted_perm.mem_iff.mp hq
    rw [halive] at this
    exact ⟨(List.mem_filter.mp this).1, (List.mem_filter.mp this).2⟩
  have hS : zeroPreySurvivors wolves =
      ((sortBy le alive).take
        (max 1 (Int.toNat ⌊(alive.length : ℚ) * 0.3⌋))).map Prod.fst := rfl
  have htake_sub : ∀ q ∈ (sortBy le alive).take
      (max 1 (Int.toNat ⌊(alive.length : ℚ) * 0.3⌋)), q ∈ sortBy le alive :=
    fun q hq => List.mem_of_mem_take hq
  have hpair : ∀ q ∈ sortBy le alive,
      q.1 < wolves.length ∧ q.2 = wolves.getD q.1 emptyWolf := by
    intro q hq
    exact enum_pair_eq emptyWolf (hmem_sorted q hq).1
  constructor
  · rw [hS]
    apply List.Nodup.map_on
    · intro q1 hq1 q2 hq2 hfst
      obtain ⟨l1, e1⟩ := hpair q1 (htake_sub q1 hq1)
      obtain ⟨l2, e2⟩ := hpair q2 (htake_sub q2 hq2)
      have : q1.2 = q2.2 := by rw [e1, e2, hfst]
      exact Prod.ext hfst this
    · exact (List.take_sublist _ _).nodup hsorted_nodup
  refine ⟨?_, ?_, ?_⟩
  · intro j hj
    rw [hS] at hj
    obtain ⟨q, hq, hqf⟩ := List.mem_map.mp hj
    obtain ⟨hlt, heq⟩ := hpair q (htake_sub q hq)
    have halq : Wolf.isAlive q.2 = true := (hmem_sorted q (htake_sub q hq)).2
    subst hqf
    rw [← heq]
    exact ⟨hlt, halq⟩
  · rw [hS, List.length_map, List.length_take, hsorted_perm.length_eq,
      halive_len, zeroPreyKeep]
  · intro ⟨j, hjS, hjold⟩ i hilt hial hiyoung
    obtain ⟨a, b, hab, hayoung, hbold⟩ := sortBy_const_pred
      (fun q : ℕ × Wolf => decide (q.2.age < 3)) alive
    have hab' : sortBy le alive = a ++ b := hab
    rw [hS] at hjS
    obtain ⟨qj, hqj, hqjf⟩ := List.mem_map.mp hjS
    have hqj_old : ¬ qj.2.age < 3 := by
      obtain ⟨hlt, heq⟩ := hpair qj (htake_sub qj hqj)
      rw [heq, hqjf]
      exact hjold
    have hqj_in_b : qj ∈ b := by
      have hmem : qj ∈ a ++ b := by
        rw [← hab']
        exact htake_sub qj hqj
      rcases List.mem_append.mp hmem with h | h
      · exact absurd (of_decide_eq_true (hayoung qj h)) hqj_old
      · exact h
    have hk_gt_a : a.length <
        max 1 (Int.toNat ⌊(alive.length : ℚ) * 0.3⌋) := by
      by_contra hcon
      push_neg at hcon
      have : (sortBy le alive).take
          (max 1 (Int.toNat ⌊(alive.length : ℚ) * 0.3⌋)) =
          a.take (max 1 (Int.toNat ⌊(alive.length : ℚ) * 0.3⌋)) ++
          b.take (max 1 (Int.toNat ⌊(alive.length : ℚ) * 0.3⌋) - a.length) := by
        rw [hab']
        exact List.take_append_eq_append_take
      rw [this] at hqj
      rcases List.mem_append.mp hqj with h | h
      · exact absurd (of_decide_eq_true
          (hayoung qj (List.mem_of_mem_take h))) hqj_old
      · have : max 1 (Int.toNat ⌊(alive.length : ℚ) * 0.3⌋) - a.length = 0 := by
          omega
        rw [this, List.take_zero] at h
        exact absurd h (List.not_mem_nil qj)
    -- value (i, wolf i) is a young alive pair, hence in a, hence in take k
    have hi_pair : (i, wolves.getD i emptyWolf) ∈ alive := by
      rw [halive]
      refine List.mem_filter.mpr ⟨?_, hial⟩
      exact List.mem_enum_iff_getElem?.mpr
        (by rw [List.getElem?_eq_getElem hilt, List.getD_eq_getElem?_getD,
                List.getElem?_eq_getElem hilt, Option.getD_some])
    have hi_sorted : (i, wolves.getD i emptyWolf) ∈ a ++ b := by
      rw [← hab']
      exact hsorted_perm.mem_iff.mpr hi_pair
    have hi_in_a : (i, wolves.getD i emptyWolf) ∈ a := by
      rcases List.mem_append.mp hi_sorted with h | h
      · exact h
      · exact absurd hiyoung (by simpa using hbold _ h)
    have hi_take : (i, wolves.getD i emptyWolf) ∈
        (sortBy le alive).take
          (max 1 (Int.toNat ⌊(alive.length : ℚ) * 0.3⌋)) := by
      rw [hab', List.take_append_eq_append_take,
        List.take_of_length_le (Nat.le_of_lt hk_gt_a)]
      exact List.mem_append.mpr (Or.inl hi_in_a)
    rw [hS]
    exact List.mem_map.mpr ⟨(i, wolves.getD i emptyWolf), hi_take, rfl⟩

/-- Counting a filtered list through the index range: the number of
elements satisfying `p` equals the number of in-range indices whose
element satisfies `p`. -/
theorem filter_length_range (p : α → Bool) (d : α) (l : List α) :
    (l.filter p).length =
      ((List.range l.length).filter (fun i => p (l.getD i d))).length := by
  induction l with
  | nil => rfl
  | cons x xs ih =>
    rw [List.length_cons, List.range_succ_eq_map, List.filter_cons,
      List.filter_cons]
    have hmap : (List.map Nat.succ (List.range xs.length)).filter
        (fun i => p ((x :: xs).getD i d)) =
        List.map Nat.succ ((List.range xs.length).filter
          (fun i => p (xs.getD i d))) := by
      rw [List.filter_map Nat.succ (List.range xs.length)]
      rfl
    simp only [List.getD_cons_zero, hmap]
    by_cases hx : p x = true
    · rw [if_pos hx, if_pos hx]
      simp only [List.length_cons, List.length_map]
      rw [ih]
    · rw [if_neg hx, if_neg hx, ih, List.length_map]

/-- The zero-prey kill sweep as an explicit fold over an index list;
`killNonSurvivors S wm` is definitionally `killNSgo S (range n) wm`. -/
def killNSgo (S : List ℕ) (L : List ℕ) (wm : WolfMgr) : WolfMgr :=
  L.foldl
    (fun m i =>
      if (m.wolves.getD i emptyWolf).isAlive && !(S.contains i) then
        m.killWolf i "starvation"
      else m) wm

theorem killNonSurvivors_eq_go (S : List ℕ) (wm : WolfMgr) :
    killNonSurvivors S wm = killNSgo S (List.range wm.wolves.length) wm := rfl

theorem alive_getD_lt (l : List Wolf) (i : ℕ)
    (h : (l.getD i emptyWolf).isAlive = true) : i < l.length := by
  by_contra hge
  rw [List.getD_eq_default l emptyWolf (Nat.le_of_not_lt hge)] at h
  exact absurd h (by decide)

/-- Full characterization of the kill sweep over a duplicate-free index
list: length preserved, untouched indices keep their slot, touched
indices are emptied exactly when alive and not among the survivors, the
starvation counter counts the emptied slots, other counters frozen. -/
theorem killNSgo_spec (S : List ℕ) (L : List ℕ) (hnd : L.Nodup)
    (wm : WolfMgr) :
    (killNSgo S L wm).wolves.length = wm.wolves.length ∧
    (∀ j, j ∉ L →
      (killNSgo S L wm).wolves.getD j emptyWolf =
        wm.wolves.getD j emptyWolf) ∧
    (∀ j ∈ L, (killNSgo S L wm).wolves.getD j emptyWolf =
      if (wm.wolves.getD j emptyWolf).isAlive = true ∧ ¬ j ∈ S then emptyWolf
      else wm.wolves.getD j emptyWolf) ∧
    (killNSgo S L wm).starvationDeath = wm.starvationDeath +
      (L.filter (fun j =>
        (wm.wolves.getD j emptyWolf).isAlive && !(S.contains j))).length ∧
    (killNSgo S L wm).ageDeath = wm.ageDeath ∧
    (killNSgo S L wm).unknownDeath = wm.unknownDeath := by
  induction L generalizing wm with
  | nil =>
    exact ⟨rfl, fun j _ => rfl, fun j hj => absurd hj (List.not_mem_nil j),
      rfl, rfl, rfl⟩
  | cons i L ih =>
    have hndL : L.Nodup := hnd.of_cons
    have hiL : i ∉ L := (List.nodup_cons.mp hnd).1
    set cond := ((wm.wolves.getD i emptyWolf).isAlive && !(S.contains i))
      with hcond
    set wm1 := if cond = true then wm.killWolf i "starvation" else wm
      with hwm1
    have hgo : killNSgo S (i :: L) wm = killNSgo S L wm1 := by
      rw [hwm1]
      by_cases hb : cond = true
      · rw [if_pos hb]
        show killNSgo S L (if cond = true then _ else _) = _
        rw [if_pos hb]
      · rw [if_neg hb]
        show killNSgo S L (if cond = true then _ else _) = _
        rw [if_neg hb]
    have hcond_iff : cond = true ↔
        (wm.wolves.getD i emptyWolf).isAlive = true ∧ ¬ i ∈ S := by
      rw [hcond, Bool.and_eq_true, Bool.not_eq_true']
      constructor
      · rintro ⟨h1, h2⟩
        refine ⟨h1, ?_⟩
        intro hmem
        have h2' : S.contains i = true := List.elem_iff.mpr hmem
        rw [h2'] at h2
        exact Bool.noConfusion h2
      · rintro ⟨h1, h2⟩
        refine ⟨h1, ?_⟩
        rw [Bool.eq_false_iff]
        intro hc
        exact h2 (List.elem_iff.mp hc)
    have hlen1 : wm1.wolves.length = wm.wolves.length := by
      rw [hwm1]
      by_cases hb : cond = true
      · rw [if_pos hb]; exact killWolf_wolves_length wm i _
      · rw [if_neg hb]
    have hne1 : ∀ j, j ≠ i →
        wm1.wolves.getD j emptyWolf = wm.wolves.getD j emptyWolf := by
      intro j hj
      rw [hwm1]
      by_cases hb : cond = true
      · rw [if_pos hb]; exact killWolf_getD_ne wm i _ j hj
      · rw [if_neg hb]
    have hslot1 : wm1.wolves.getD i emptyWolf =
        if (wm.wolves.getD i emptyWolf).isAlive = true ∧ ¬ i ∈ S
        then emptyWolf else wm.wolves.getD i emptyWolf := by
      rw [hwm1]
      by_cases hb : cond = true
      · rw [if_pos hb, if_pos (hcond_iff.mp hb)]
        have hal := (hcond_iff.mp hb).1
        exact killWolf_getD_self_dead wm i _
          (alive_getD_lt wm.wolves i hal) hal
      · rw [if_neg hb, if_neg (fun hc => hb (hcond_iff.mpr hc))]
    have hcnt1 : wm1.starvationDeath =
        wm.starvationDeath + (if cond = true then 1 else 0) ∧
        wm1.ageDeath = wm.ageDeath ∧ wm1.unknownDeath = wm.unknownDeath := by
      rw [hwm1]
      by_cases hb : cond = true
      · rw [if_pos hb, if_pos hb]
        have hal := (hcond_iff.mp hb).1
        obtain ⟨h1, h2, h3⟩ := killWolf_starvation_counters wm i
          (alive_getD_lt wm.wolves i hal) hal
        exact ⟨h1, h2, h3⟩
      · rw [if_neg hb, if_neg hb]
        exact ⟨rfl, rfl, rfl⟩
    obtain ⟨ihlen, ihout, ihin, ihs, iha, ihu⟩ := ih hndL wm1
    have hfil : L.filter (fun j =>
        (wm1.wolves.getD j emptyWolf).isAlive && !(S.contains j)) =
        L.filter (fun j =>
        (wm.wolves.getD j emptyWolf).isAlive && !(S.contains j)) := by
      apply List.filter_congr
      intro j hj
      rw [hne1 j (fun hji => hiL (hji ▸ hj))]
    refine ⟨?_, ?_, ?_, ?_, ?_, ?_⟩
    · rw [hgo, ihlen, hlen1]
    · intro j hj
      have hjne : j ≠ i := fun hji => hj (hji ▸ List.mem_cons_self i L)
      have hjL : j ∉ L := fun hjl => hj (List.mem_cons_of_mem i hjl)
      rw [hgo, ihout j hjL, hne1 j hjne]
    · intro j hj
      rcases List.mem_cons.mp hj with hji | hjL
      · subst hji
        rw [hgo, ihout j hiL, hslot1]
      · have hjne : j ≠ i := fun hji => hiL (hji ▸ hjL)
        rw [hgo, ihin j hjL, hne1 j hjne]
    · rw [hgo, ihs, hfil, hcnt1.1, List.filter_cons]
      by_cases hb : cond = true
      · rw [if_pos (by rw [hcond] at hb; exact hb), if_pos hb,
          List.length_cons]
        omega
      · rw [if_neg (by rw [hcond] at hb; exact hb), if_neg hb]
        omega
    · rw [hgo, iha, hcnt1.2.1]
    · rw [hgo, ihu, hcnt1.2.2]

/-- Concrete wolf manager for the C4 witness: one living wolf of age 3,
mass 21, hunger 5, stamina 5. -/
def wmC4 : WolfMgr := ⟨[⟨1, 3, 21, 5, 5⟩], 0, 0, 0⟩

/-- Concrete deer manager for the C4 witness: one living deer. -/
def dmC4 : DeerMgr := ⟨[⟨1, 2, 14, 2, 3⟩], 0, 0, 0, 0⟩

/-- The (unique) hunt event of the C4 witness run. -/
def eC4 : HuntEvent :=
  (wmC4.processHunting jmExact dmC4 [0, 0]).events.getD 0 ⟨0, 0, 0, 0, [], false⟩

theorem C4_witness :
    (aliveDeerIndices dmC4.deers).length ≠ 0 ∧
    (∀ i, i < wmC4.wolves.length →
      (wmC4.wolves.getD i emptyWolf).isAlive = true →
      0 < wolfMassNeeded (wmC4.wolves.getD i emptyWolf)) ∧
    eC4 ∈ (wmC4.processHunting jmExact dmC4 [0, 0]).events ∧
    (eC4.killed.length ≤ 2 ∧
     eC4.killed.length ≤ eC4.availAtTurn ∧
     (eC4.survived = true ↔ eC4.massNeeded * 0.6 ≤ eC4.massConsumed) ∧
     ((wmC4.processHunting jmExact dmC4 [0, 0]).wm.wolves.getD eC4.idx
        emptyWolf).isAlive = eC4.survived) :=
  ⟨by decide, by decide, by decide,
   C4_capture_cap_and_sixty_percent jmExact wmC4 dmC4 [0, 0] eC4
     (by decide) (by decide) (by decide)⟩

/-! ## Claim C2: the zero-prey survivor rule -/

/-- Concrete wolf manager refuting the claimed `ceil` count: five living
wolves, all of age ≥ 3. -/
def wmC2 : WolfMgr :=
  ⟨[⟨1, 3, 30, 5, 5⟩, ⟨2, 3, 30, 5, 5⟩, ⟨3, 4, 30, 5, 5⟩,
    ⟨4, 5, 30, 5, 5⟩, ⟨5, 6, 30, 5, 5⟩], 0, 0, 0⟩

/-- Deer manager with no living deer (zero prey). -/
def dmC2 : DeerMgr := ⟨[], 0, 0, 0, 0⟩

/-- The claim's survivor count, exactly as stated: with at least one
living wolf and zero living prey, exactly
`max(1, Math.ceil(aliveWolves * 0.3))` wolves remain alive after
`processHunting`. -/
def zeroPreyCeilClaim : Prop :=
  ∀ (jm : JsMath) (wm : WolfMgr) (dm : DeerMgr) (r : Rng),
    1 ≤ (wm.wolves.filter Wolf.isAlive).length →
    (aliveDeerIndices dm.deers).length = 0 →
    ((wm.processHunting jm dm r).wm.wolves.filter Wolf.isAlive).length =
      max 1 (Int.toNat ⌈((wm.wolves.filter Wolf.isAlive).length : ℚ) * 0.3⌉)

/-- **C2 counterexample**: the code computes the zero-prey survivor count
with `Math.floor`, not the claimed `Math.ceil`.  With five living wolves
and zero prey it keeps `max(1, ⌊5·0.3⌋) = 1` wolf alive, while the claim
demands `max(1, ⌈5·0.3⌉) = 2`. -/
theorem C2_counterexample : ¬ zeroPreyCeilClaim := by
  intro h
  have hc := h jmExact wmC2 dmC2 [] (by decide) (by decide)
  exact absurd hc (by decide)

/-- **C2** (amended): with zero living prey, `processHunting` applies the
fallback-food rule with `Math.floor`: of the `n` living wolves exactly
`min (max 1 ⌊n·0.3⌋) n` stay alive, preferentially the young ones (if any
wolf of age ≥ 3 survives, every living wolf of age < 3 survives); every
other living wolf is killed with cause starvation (the starvation counter
increases by exactly the number killed, the other counters are frozen),
surviving slots are bit-for-bit unchanged, dead slots stay dead, the
array length is preserved, and the deer manager, RNG stream and event
list are untouched. -/
theorem C2_zero_prey_floor_rule (jm : JsMath) (wm : WolfMgr) (dm : DeerMgr)
    (r : Rng) (hzero : (aliveDeerIndices dm.deers).length = 0) :
    let out := wm.processHunting jm dm r
    let n := (wm.wolves.filter Wolf.isAlive).length
    (out.wm.wolves.filter Wolf.isAlive).length = min (zeroPreyKeep n) n ∧
    out.dm = dm ∧ out.rng = r ∧ out.events = [] ∧
    out.wm.starvationDeath =
      wm.starvationDeath + (n - min (zeroPreyKeep n) n) ∧
    out.wm.ageDeath = wm.ageDeath ∧
    out.wm.unknownDeath = wm.unknownDeath ∧
    out.wm.wolves.length = wm.wolves.length ∧
    (∀ i, (out.wm.wolves.getD i emptyWolf).isAlive = true →
      out.wm.wolves.getD i emptyWolf = wm.wolves.getD i emptyWolf ∧
      (wm.wolves.getD i emptyWolf).isAlive = true) ∧
    ((∃ i, (out.wm.wolves.getD i emptyWolf).isAlive = true ∧
        ¬ (out.wm.wolves.getD i emptyWolf).age < 3) →
      ∀ i, i < wm.wolves.length →
        (wm.wolves.getD i emptyWolf).isAlive = true →
        (wm.wolves.getD i emptyWolf).age < 3 →
        (out.wm.wolves.getD i emptyWolf).isAlive = true) := by
  intro out n
  have hout : out = ⟨killNonSurvivors (zeroPreySurvivors wm.wolves) wm,
      dm, r, []⟩ := processHunting_zero jm wm dm r hzero
  obtain ⟨hSnd, hSmem, hSlen, hSyouth⟩ := zeroPreySurvivors_spec wm.wolves
  obtain ⟨hlen, houtr, hin, hstarv, hage, hunk⟩ :=
    killNSgo_spec (zeroPreySurvivors wm.wolves)
      (List.range wm.wolves.length) (List.nodup_range wm.wolves.length) wm
  have hwv : out.wm.wolves =
      (killNSgo (zeroPreySurvivors wm.wolves)
        (List.range wm.wolves.length) wm).wolves := by
    rw [hout, killNonSurvivors_eq_go]
  have hnS : (zeroPreySurvivors wm.wolves).length =
      min (zeroPreyKeep n) n := hSlen
  -- slot characterization for every index
  have hchar : ∀ i, out.wm.wolves.getD i emptyWolf =
      if i < wm.wolves.length ∧
          (wm.wolves.getD i emptyWolf).isAlive = true ∧
          ¬ i ∈ zeroPreySurvivors wm.wolves
      then emptyWolf else wm.wolves.getD i emptyWolf := by
    intro i
    by_cases hi : i < wm.wolves.length
    · rw [hwv, hin i (List.mem_range.mpr hi)]
      by_cases hc : (wm.wolves.getD i emptyWolf).isAlive = true ∧
          ¬ i ∈ zeroPreySurvivors wm.wolves
      · rw [if_pos hc, if_pos ⟨hi, hc⟩]
      · rw [if_neg hc, if_neg (fun h3 => hc ⟨h3.2.1, h3.2.2⟩)]
    · rw [hwv, houtr i (fun hm => hi (List.mem_range.mp hm)),
        if_neg (fun h3 => hi h3.1)]
  -- aliveness after the sweep is exactly membership in the survivor set
  have halive_iff : ∀ i, (out.wm.wolves.getD i emptyWolf).isAlive = true ↔
      i ∈ zeroPreySurvivors wm.wolves := by
    intro i
    rw [hchar i]
    by_cases hc : i < wm.wolves.length ∧
        (wm.wolves.getD i emptyWolf).isAlive = true ∧
        ¬ i ∈ zeroPreySurvivors wm.wolves
    · rw [if_pos hc]
      constructor
      · intro h; exact absurd h (by decide)
      · intro h; exact absurd h hc.2.2
    · rw [if_neg hc]
      constructor
      · intro hal
        by_contra hmem
        exact hc ⟨alive_getD_lt wm.wolves i hal, hal, hmem⟩
      · intro hmem
        exact (hSmem i hmem).2
  have hlenwv : out.wm.wolves.length = wm.wolves.length := by
    rw [hwv]; exact hlen
  refine ⟨?_, ?_, ?_, ?_, ?_, ?_, ?_, hlenwv, ?_, ?_⟩
  -- survivor count
  · rw [filter_length_range Wolf.isAlive emptyWolf out.wm.wolves, hlenwv,
      ← hnS]
    have hperm : List.Perm
        ((List.range wm.wolves.length).filter
          (fun i => (out.wm.wolves.getD i emptyWolf).isAlive))
        (zeroPreySurvivors wm.wolves) := by
      apply (List.perm_ext_iff_of_nodup
        ((List.filter_sublist _).nodup (List.nodup_range wm.wolves.length))
        hSnd).mpr
      intro a
      rw [List.mem_filter, List.mem_range]
      constructor
      · rintro ⟨-, ha⟩
        exact (halive_iff a).mp ha
      · intro ha
        exact ⟨(hSmem a ha).1, (halive_iff a).mpr ha⟩
    exact hperm.length_eq
  · rw [hout]
  · rw [hout]
  · rw [hout]
  -- starvation counter
  · have hstarv' : out.wm.starvationDeath = wm.starvationDeath +
        ((List.range wm.wolves.length).filter (fun j =>
          (wm.wolves.getD j emptyWolf).isAlive &&
          !((zeroPreySurvivors wm.wolves).contains j))).length := by
      rw [hout]
      show (killNonSurvivors (zeroPreySurvivors wm.wolves) wm).starvationDeath
        = _
      rw [killNonSurvivors_eq_go]
      exact hstarv
    rw [hstarv']
    have hB' : n = ((List.range wm.wolves.length).filter (fun j =>
        (wm.wolves.getD j emptyWolf).isAlive)).length :=
      filter_length_range Wolf.isAlive emptyWolf wm.wolves
    have hBnodup : ((List.range wm.wolves.length).filter (fun j =>
        (wm.wolves.getD j emptyWolf).isAlive)).Nodup :=
      (List.filter_sublist _).nodup (List.nodup_range wm.wolves.length)
    have hsplit : ((List.range wm.wolves.length).filter (fun j =>
          (wm.wolves.getD j emptyWolf).isAlive)).length =
        (((List.range wm.wolves.length).filter (fun j =>
          (wm.wolves.getD j emptyWolf).isAlive)).filter (fun j =>
          (zeroPreySurvivors wm.wolves).contains j)).length +
        (((List.range wm.wolves.length).filter (fun j =>
          (wm.wolves.getD j emptyWolf).isAlive)).filter (fun j =>
          !((zeroPreySurvivors wm.wolves).contains j))).length :=
      List.length_eq_length_filter_add _
    have h1perm : List.Perm
        (((List.range wm.wolves.length).filter (fun j =>
          (wm.wolves.getD j emptyWolf).isAlive)).filter (fun j =>
          (zeroPreySurvivors wm.wolves).contains j))
        (zeroPreySurvivors wm.wolves) := by
      apply (List.perm_ext_iff_of_nodup
        ((List.filter_sublist _).nodup hBnodup) hSnd).mpr
      intro a
      rw [List.mem_filter, List.mem_filter, List.mem_range]
      constructor
      · rintro ⟨⟨-, -⟩, hc⟩
        exact List.elem_iff.mp hc
      · intro ha
        exact ⟨⟨(hSmem a ha).1, (hSmem a ha).2⟩, List.elem_iff.mpr ha⟩
    have h2eq : (((List.range wm.wolves.length).filter (fun j =>
          (wm.wolves.getD j emptyWolf).isAlive)).filter (fun j =>
          !((zeroPreySurvivors wm.wolves).contains j))) =
        (List.range wm.wolves.length).filter (fun j =>
          (wm.wolves.getD j emptyWolf).isAlive &&
          !((zeroPreySurvivors wm.wolves).contains j)) := by
      rw [List.filter_filter]
      apply List.filter_congr
      intro a _
      exact Bool.and_comm _ _
    have hn2 : n = (zeroPreySurvivors wm.wolves).length +
        ((List.range wm.wolves.length).filter (fun j =>
          (wm.wolves.getD j emptyWolf).isAlive &&
          !((zeroPreySurvivors wm.wolves).contains j))).length := by
      rw [hB', hsplit, h1perm.length_eq, h2eq]
    have hSlen' : (zeroPreySurvivors wm.wolves).length =
        min (zeroPreyKeep n) n := hSlen
    omega
  · rw [hout]
    show (killNonSurvivors (zeroPreySurvivors wm.wolves) wm).ageDeath = _
    rw [killNonSurvivors_eq_go]
    exact hage
  · rw [hout]
    show (killNonSurvivors (zeroPreySurvivors wm.wolves) wm).unknownDeath = _
    rw [killNonSurvivors_eq_go]
    exact hunk
  -- survivors unchanged, were alive
  · intro i hal
    have hmem := (halive_iff i).mp hal
    refine ⟨?_, (hSmem i hmem).2⟩
    rw [hchar i, if_neg (fun h3 => h3.2.2 hmem)]
  -- youth preference
  · rintro ⟨j, hjal, hjold⟩ i hilt hial hiyoung
    have hjmem := (halive_iff j).mp hjal
    have hjeq : out.wm.wolves.getD j emptyWolf = wm.wolves.getD j emptyWolf := by
      rw [hchar j, if_neg (fun h3 => h3.2.2 hjmem)]
    rw [hjeq] at hjold
    exact (halive_iff i).mpr
      (hSyouth ⟨j, hjmem, hjold⟩ i hilt hial hiyoung)

theorem C2_witness :
    (aliveDeerIndices dmC2.deers).length = 0 ∧
    (let out := wmC2.processHunting jmExact dmC2 []
     let n := (wmC2.wolves.filter Wolf.isAlive).length
     (out.wm.wolves.filter Wolf.isAlive).length = min (zeroPreyKeep n) n ∧
     out.dm = dmC2 ∧ out.rng = [] ∧ out.events = [] ∧
     out.wm.starvationDeath =
       wmC2.starvationDeath + (n - min (zeroPreyKeep n) n) ∧
     out.wm.ageDeath = wmC2.ageDeath ∧
     out.wm.unknownDeath = wmC2.unknownDeath ∧
     out.wm.wolves.length = wmC2.wolves.length ∧
     (∀ i, (out.wm.wolves.getD i emptyWolf).isAlive = true →
       out.wm.wolves.getD i emptyWolf = wmC2.wolves.getD i emptyWolf ∧
       (wmC2.wolves.getD i emptyWolf).isAlive = true) ∧
     ((∃ i, (out.wm.wolves.getD i emptyWolf).isAlive = true ∧
         ¬ (out.wm.wolves.getD i emptyWolf).age < 3) →
       ∀ i, i < wmC2.wolves.length →
         (wmC2.wolves.getD i emptyWolf).isAlive = true →
         (wmC2.wolves.getD i emptyWolf).age < 3 →
         (out.wm.wolves.getD i emptyWolf).isAlive = true)) :=
  ⟨by decide, C2_zero_prey_floor_rule jmExact wmC2 dmC2 [] (by decide)⟩

/-! ## Claim C6: the full-removal rule of foraging -/

theorem clearTreeSlot_effect (useTm : Bool) (tm : TreeMgr) (j : ℕ)
    (hj : j < tm.trees.length)
    (hocc : (tm.trees.getD j emptyTree).occupied = true) :
    (clearTreeSlot useTm tm j).trees = tm.trees.set j emptyTree ∧
    (clearTreeSlot useTm tm j).consumedByDeer =
      (if useTm then tm.consumedByDeer + 1 else tm.consumedByDeer) := by
  cases useTm with
  | false =>
    unfold clearTreeSlot
    rw [if_neg (by decide)]
    exact ⟨rfl, by rw [if_neg (by decide)]⟩
  | true =>
    unfold clearTreeSlot
    rw [if_pos rfl]
    unfold TreeMgr.markAsConsumedByDeer
    rw [if_pos ⟨hj, hocc⟩]
    exact ⟨rfl, by rw [if_pos rfl]⟩

/-- **C6**: in the foraging inner step on an occupied in-range tree of
positive mass, the tree the deer eats from is fully removed exactly when
the harvested fraction of its mass is ≥ 30% or its age is ≤ 2 (the
young-tree threshold); on removal the slot is emptied (with the consumed
counter incremented in the manager-reporting mode) and the index leaves
the candidate pool, and otherwise the tree state is completely untouched
and the index stays in the pool. -/
theorem C6_full_removal_iff (useTm : Bool) (tm : TreeMgr) (pool : List ℕ)
    (j : ℕ) (msn : ℚ)
    (hmass : 0 < (tm.trees.getD j emptyTree).mass)
    (hj : j < tm.trees.length)
    (hocc : (tm.trees.getD j emptyTree).occupied = true) :
    ((consumeTree useTm tm pool j msn).2.2.2.1 = true ↔
      (consumeTree useTm tm pool j msn).2.2.1 /
          (tm.trees.getD j emptyTree).mass ≥ 0.3 ∨
        (tm.trees.getD j emptyTree).age ≤ 2) ∧
    ((consumeTree useTm tm pool j msn).2.2.2.1 = true →
      (consumeTree useTm tm pool j msn).1.trees = tm.trees.set j emptyTree ∧
      (consumeTree useTm tm pool j msn).1.consumedByDeer =
        (if useTm then tm.consumedByDeer + 1 else tm.consumedByDeer) ∧
      (consumeTree useTm tm pool j msn).2.1 = pool.filter (· ≠ j)) ∧
    ((consumeTree useTm tm pool j msn).2.2.2.1 = false →
      (consumeTree useTm tm pool j msn).1 = tm ∧
      (consumeTree useTm tm pool j msn).2.1 = pool) := by
  unfold consumeTree
  dsimp only
  by_cases h1 : msn ≤ (tm.trees.getD j emptyTree).mass
  · rw [if_pos h1]
    by_cases h2 : msn / (tm.trees.getD j emptyTree).mass ≥ 0.3 ∨
        (tm.trees.getD j emptyTree).age ≤ 2
    · rw [if_pos h2]
      refine ⟨⟨fun _ => h2, fun _ => rfl⟩, fun _ => ?_, fun hc => ?_⟩
      · obtain ⟨ht, hcd⟩ := clearTreeSlot_effect useTm tm j hj hocc
        exact ⟨ht, hcd, rfl⟩
      · exact Bool.noConfusion hc
    · rw [if_neg h2]
      exact ⟨⟨fun hc => Bool.noConfusion hc, fun hc => absurd hc h2⟩,
        fun hc => Bool.noConfusion hc, fun _ => ⟨rfl, rfl⟩⟩
  · rw [if_neg h1]
    refine ⟨⟨fun _ => Or.inl ?_, fun _ => rfl⟩, fun _ => ?_, fun hc => ?_⟩
    · rw [div_self (ne_of_gt hmass)]
      norm_num
    · obtain ⟨ht, hcd⟩ := clearTreeSlot_effect useTm tm j hj hocc
      exact ⟨ht, hcd, rfl⟩
    · exact Bool.noConfusion hc

/-- Concrete tree manager for the C6 witness: one occupied tree of age
30 and mass 10. -/
def tmC6 : TreeMgr := ⟨[⟨1, 30, 10, 0.3, 10⟩], 1, false, 0, 0, 0, 0, 0, 0⟩

theorem C6_witness :
    0 < (tmC6.trees.getD 0 emptyTree).mass ∧
    0 < tmC6.trees.length ∧
    (tmC6.trees.getD 0 emptyTree).occupied = true ∧
    (((consumeTree true tmC6 [0] 0 1).2.2.2.1 = true ↔
       (consumeTree true tmC6 [0] 0 1).2.2.1 /
           (tmC6.trees.getD 0 emptyTree).mass ≥ 0.3 ∨
         (tmC6.trees.getD 0 emptyTree).age ≤ 2) ∧
     ((consumeTree true tmC6 [0] 0 1).2.2.2.1 = true →
       (consumeTree true tmC6 [0] 0 1).1.trees =
         tmC6.trees.set 0 emptyTree ∧
       (consumeTree true tmC6 [0] 0 1).1.consumedByDeer =
         (if true then tmC6.consumedByDeer + 1 else tmC6.consumedByDeer) ∧
       (consumeTree true tmC6 [0] 0 1).2.1 = [0].filter (· ≠ 0)) ∧
     ((consumeTree true tmC6 [0] 0 1).2.2.2.1 = false →
       (consumeTree true tmC6 [0] 0 1).1 = tmC6 ∧
       (consumeTree true tmC6 [0] 0 1).2.1 = [0])) :=
  ⟨by decide, by decide, by decide,
   C6_full_removal_iff true tmC6 [0] 0 1 (by decide) (by decide) (by decide)⟩

/-! ## Claim C9: the yearly tick and its determinism

The remaining lifecycle phases called by `SimulationManager.simulateYear`
(first revision of `src/simulation/SimulationManager.js`), embedded from
the same authoritative manager revisions as above.  Every `Math.random()`
call — including the calls that only decide whether to emit a debug log
line — consumes one draw from the single shared stream, and
`Utils.randGauss` consumes one draw, so the entire tick threads one
`Rng` value through all phases in program order. -/

/-- Modelled from the spec: the `SpatialGrid` collaborator returned by
`Utils.createGrid(gridSize)` (`utils/helpers.js` is an out-of-scope
external): a square grid with `sideLength = ⌊√gridSize⌋` and row-major
index mapping `getIndex(x, y) = y · sideLength + x`. -/
def gridSide (gridSize : ℕ) : ℕ := natSqrt gridSize

/-- `TreeManager.findEmptyPosition()`: pick a uniformly random index
among the empty slots (`none` models the `-1` of an exhausted array; no
draw is consumed in that case). -/
def TreeMgr.findEmptyPosition (m : TreeMgr) (r : Rng) : Option ℕ × Rng :=
  let emptyPositions :=
    (m.trees.enum.filter (fun p => !(p.2.occupied))).map Prod.fst
  if emptyPositions.length = 0 then (none, r)
  else
    let (d, r') := randNext r
    (some (emptyPositions.getD (pickIdx emptyPositions.length d) 0), r')

/-- One local window of `TreeManager.processConcurrence`, centered at
`(x, y)` with `x, y ≥ 4`: gather the occupied trees of the 9×9
neighborhood in row order; if the window holds more than `maxTrees`
trees, remove the excess starting from the smallest diameter (the
gathered tree objects keep their positions, so removal addresses slot
`position - 1`). -/
def concurrenceWindow (maxTrees : ℚ) (side x y : ℕ) (tm : TreeMgr) : TreeMgr :=
  let localTrees :=
    (List.range 9).foldl (fun acc ky =>
      (List.range 9).foldl (fun acc2 kx =>
        let index := (y + ky - 4) * side + (x + kx - 4)
        let t := tm.trees.getD index emptyTree
        if index < tm.trees.length ∧ t.occupied = true then acc2 ++ [t]
        else acc2) acc) []
  if maxTrees < (localTrees.length : ℚ) then
    let sorted := sortBy (fun a b => decide (a.diameter ≤ b.diameter)) localTrees
    (List.range (Int.toNat ⌈(localTrees.length : ℚ) - maxTrees⌉)).foldl
      (fun m i =>
        let t := sorted.getD i emptyTree
        if t.position ≠ 0 then m.removeTree (t.position - 1) "concurrence"
        else m) tm
  else tm

/-- `TreeManager.processConcurrence(density)`: sweep the interior grid
cells (margin 4) in row order, thinning each 9×9 window down to the
clamped density (no randomness; the diameter comparator is
deterministic). -/
def TreeMgr.processConcurrence (m : TreeMgr) (density : ℚ) : TreeMgr :=
  let maxTreesPerGrid := max 1 (min 20 density)
  let side := gridSide m.gridSize
  ((List.range (side - 8)).map (· + 4)).foldl (fun acc y =>
    ((List.range (side - 8)).map (· + 4)).foldl (fun acc2 x =>
      concurrenceWindow maxTreesPerGrid side x y acc2) acc) m

/-- `TreeManager.processAgeDeaths()`: every occupied slot draws a death
age from `randGauss(100, 10)` and the tree is removed (cause `age`) if
its age exceeds the draw.  The source then also executes the bulk
`this.ageDeaths += deathCount` on top of `removeTree`'s per-death
increment, so each age death is counted twice. -/
def TreeMgr.processAgeDeaths (m : TreeMgr) (r : Rng) : TreeMgr × Rng :=
  let res := (List.range m.trees.length).foldl
    (fun (acc : TreeMgr × Rng × ℕ) index =>
      let tree := acc.1.trees.getD index emptyTree
      if tree.occupied then
        let (deathAge, r') := randGauss 100 10 acc.2.1
        if deathAge < tree.age then
          (acc.1.removeTree index "age", r', acc.2.2 + 1)
        else (acc.1, r', acc.2.2)
      else acc) (m, r, 0)
  ({ res.1 with ageDeaths := res.1.ageDeaths + res.2.2 }, res.2.1)

/-- `TreeManager.processStressDeaths(stressParam)`: a legacy stress index
above 10 maps to probability `min(10, max(1, round(100/stressParam)))/100`,
the 1–10 scale maps through `pow(level/10, 1.5) * 0.2`; each occupied
slot then draws once against the age-resistance-reduced probability and
is removed (cause `stress`) on a hit.  The source then also executes the
bulk `this.stressDeaths += deathCount` on top of `removeTree`'s
per-death increment, so each stress death is counted twice. -/
def TreeMgr.processStressDeaths (jm : JsMath) (m : TreeMgr)
    (stressParam : ℚ) (r : Rng) : TreeMgr × Rng :=
  let stressProbability :=
    if 10 < stressParam then
      ((min 10 (max 1 (jsRound (100 / stressParam))) : ℤ) : ℚ) / 100
    else
      jm.pow ((min 10 (max 1 stressParam)) / 10) 1.5 * 0.2
  let res := (List.range m.trees.length).foldl
    (fun (acc : TreeMgr × Rng × ℕ) index =>
      let tree := acc.1.trees.getD index emptyTree
      if tree.occupied then
        let ageResistance := min 0.8 (tree.age / 100)
        let effective := stressProbability * (1 - ageResistance)
        let (d, r') := randNext acc.2.1
        if d < effective then
          (acc.1.removeTree index "stress", r', acc.2.2 + 1)
        else (acc.1, r', acc.2.2)
      else acc) (m, r, 0)
  ({ res.1 with stressDeaths := res.1.stressDeaths + res.2.2 }, res.2.1)

/-- `TreeManager.plantYoungTrees(amount)`: plant seedlings of age 1 on
random empty slots, stopping early once the array is full. -/
def TreeMgr.plantYoungTrees (jm : JsMath) : TreeMgr → ℕ → Rng → TreeMgr × Rng
  | m, 0, r => (m, r)
  | m, amount + 1, r =>
    match m.findEmptyPosition r with
    | (none, r') => (m, r')
    | (some newPos, r') =>
      let t := calculateTreeProperties jm ⟨newPos + 1, 1, 0, 0, 0⟩
      TreeMgr.plantYoungTrees jm { m with trees := m.trees.set newPos t }
        amount r'

/-- `TreeManager.reproduce(maturityAge, reproductionFactor)`: the
seedling quota is `floor(ceil(mature · 0.1 · densityFactor) ·
pow(factor/5, 1.8))`, then planted best-effort. -/
def TreeMgr.reproduce (jm : JsMath) (m : TreeMgr)
    (maturityAge reproductionFactor : ℚ) (r : Rng) : TreeMgr × Rng :=
  let scaledReproFactor := jm.pow (reproductionFactor / 5) 1.8
  let matureTrees :=
    (m.trees.filter (fun t => t.occupied && decide (maturityAge ≤ t.age))).length
  let totalTreeCount := m.getPopulationCount
  let forestDensity := (totalTreeCount : ℚ) / (m.gridSize : ℚ)
  let densityFactor := max 0.1 (1 - forestDensity)
  let baseNewTrees := jsCeil ((matureTrees : ℚ) * 0.1 * densityFactor)
  let adjustedTreeCount := jsFloor ((baseNewTrees : ℚ) * scaledReproFactor)
  m.plantYoungTrees jm (Int.toNat adjustedTreeCount) r

/-- `DeerManager.findEmptyPosition()`: pick a uniformly random index
among the empty slots.  (The source wraps the choice in a bounded retry
loop, but the chosen index is always `< deers.length`, so the first
iteration always returns; the retries are dead code.) -/
def DeerMgr.findEmptyPosition (m : DeerMgr) (r : Rng) : Option ℕ × Rng :=
  let emptyPositions :=
    (m.deers.enum.filter (fun p => !(p.2.isAlive))).map Prod.fst
  if emptyPositions.length = 0 then (none, r)
  else
    let (d, r') := randNext r
    (some (emptyPositions.getD (pickIdx emptyPositions.length d) 0), r')

/-- A migrating deer: age from `randGauss(4, 1)`, derived mass/hunger
with baseline factor 5. -/
def deerMigrant (jm : JsMath) (age : ℚ) (nr : ℕ) : Deer :=
  { nr := nr, age := age,
    mass := if age > 4 then 28 else age * 7,
    hunger := if age > 4 then 5 else age * 5 / 4,
    stamina := deerCalculateStamina jm age 5 }

/-- The migrant-placement loop of `DeerManager.processMigration`. -/
def DeerMgr.addMigrants (jm : JsMath) : DeerMgr → ℕ → Rng → DeerMgr × Rng
  | m, 0, r => (m, r)
  | m, count + 1, r =>
    match m.findEmptyPosition r with
    | (none, r') => (m, r')
    | (some newPos, r') =>
      let (age, r'') := randGauss 4 1 r'
      DeerMgr.addMigrants jm
        { m with deers := m.deers.set newPos (deerMigrant jm age (newPos + 1)) }
        count r''

/-- `DeerManager.processMigration(migrationFactor)`: a nonpositive factor
is a draw-free no-op; otherwise `2 + ⌊random·3⌋` base migrants are scaled
by `pow(factor/5, 1.8)` and a 3× boost below 5 living deer, rounded, and
placed on random empty slots. -/
def DeerMgr.processMigration (jm : JsMath) (m : DeerMgr)
    (migrationFactor : ℚ) (r : Rng) : DeerMgr × Rng :=
  if migrationFactor ≤ 0 then (m, r)
  else
    let scaledFactor := jm.pow (migrationFactor / 5) 1.8
    let populationBoost : ℚ := if m.getPopulationCount < 5 then 3 else 1
    let (d, r') := randNext r
    let baseMigrants := 2 + Int.toNat ⌊d * 3⌋
    let migrantCount := Int.toNat (max 0
      (jsRound ((baseMigrants : ℚ) * scaledFactor * populationBoost)))
    m.addMigrants jm migrantCount r'

/-- The per-deer birth-decision pass of `DeerManager.reproduce`: each
mature deer consumes one draw for the 10% debug-log sample and one draw
against its reproduction probability. -/
def deerBirthDraws (jm : JsMath) (aliveCount arrayLen : ℕ)
    (maturity scaledReproFactor reproductionFactor : ℚ) :
    List Deer → Rng → ℕ × Rng
  | [], r => (0, r)
  | deer :: rest, r =>
    let populationDensity := (aliveCount : ℚ) / (arrayLen : ℚ)
    let densityFactor := 1 - jm.pow populationDensity 1.5 * 0.7
    let reproductionProbability :=
      0.65 * densityFactor * (deer.stamina / 10) *
        (1 / (1 + jm.exp (-deer.age + maturity))) * scaledReproFactor
    let finalProbability :=
      if 8 ≤ reproductionFactor then reproductionProbability * 1.5
      else reproductionProbability
    let (_, r1) := randNext r
    let (d, r2) := randNext r1
    let (k, r3) := deerBirthDraws jm aliveCount arrayLen maturity
      scaledReproFactor reproductionFactor rest r2
    ((if d < finalProbability then 1 else 0) + k, r3)

/-- The newborn-placement loop of `DeerManager.reproduce`: each birth is
`new Deer(newPos + 1, 0, 1, 1, 5)` on a random empty slot. -/
def DeerMgr.addBirths : DeerMgr → ℕ → Rng → DeerMgr × Rng
  | m, 0, r => (m, r)
  | m, count + 1, r =>
    match m.findEmptyPosition r with
    | (none, r') => (m, r')
    | (some newPos, r') =>
      DeerMgr.addBirths
        { m with deers := m.deers.set newPos ⟨newPos + 1, 0, 1, 1, 5⟩ }
        count r'

/-- `DeerManager.reproduce(maturity, reproductionFactor)`:
`Math.pow(x, 2.0)` is an exact square; each mature deer rolls an
individual birth probability and the resulting births are placed
best-effort. -/
def DeerMgr.reproduce (jm : JsMath) (m : DeerMgr)
    (maturity reproductionFactor : ℚ) (r : Rng) : DeerMgr × Rng :=
  let scaledReproFactor := 1.4 * (reproductionFactor / 5) ^ 2
  let aliveDeer := m.deers.filter Deer.isAlive
  let matureDeer := aliveDeer.filter (fun deer => decide (maturity ≤ deer.age))
  let (potentialBirths, r') := deerBirthDraws jm aliveDeer.length
    m.deers.length maturity scaledReproFactor reproductionFactor matureDeer r
  m.addBirths potentialBirths r'

/-- `DeerManager.processNaturalDeaths()`: every living deer draws a death
age from `randGauss(10, 2)` and is killed (cause `age`) if older. -/
def DeerMgr.processNaturalDeaths (m : DeerMgr) (r : Rng) : DeerMgr × Rng :=
  (List.range m.deers.length).foldl (fun acc index =>
    let deer := acc.1.deers.getD index emptyDeer
    if deer.isAlive then
      let (deathAge, r') := randGauss 10 2 acc.2
      if deathAge < deer.age then (acc.1.killDeer index "age", r')
      else (acc.1, r')
    else acc) (m, r)

/-- `WolfManager.findEmptyPosition()` (same dead-code retry loop as the
deer version). -/
def WolfMgr.findEmptyPosition (m : WolfMgr) (r : Rng) : Option ℕ × Rng :=
  let emptyPositions :=
    (m.wolves.enum.filter (fun p => !(p.2.isAlive))).map Prod.fst
  if emptyPositions.length = 0 then (none, r)
  else
    let (d, r') := randNext r
    (some (emptyPositions.getD (pickIdx emptyPositions.length d) 0), r')

/-- A migrating wolf: age from `randGauss(3, 1)`, derived mass/hunger
with baseline factor 5. -/
def wolfMigrant (jm : JsMath) (age : ℚ) (nr : ℕ) : Wolf :=
  { nr := nr, age := age,
    mass := if age > 4 then 28 else age * 7,
    hunger := if age > 4 then 5 else age * 5 / 4,
    stamina := wolfCalculateStamina jm age 5 }

/-- The migrant-placement loop of `WolfManager.processMigration`. -/
def WolfMgr.addMigrants (jm : JsMath) : WolfMgr → ℕ → Rng → WolfMgr × Rng
  | m, 0, r => (m, r)
  | m, count + 1, r =>
    match m.findEmptyPosition r with
    | (none, r') => (m, r')
    | (some newPos, r') =>
      let (age, r'') := randGauss 3 1 r'
      WolfMgr.addMigrants jm
        { m with wolves := m.wolves.set newPos (wolfMigrant jm age (newPos + 1)) }
        count r''

/-- `WolfManager.processMigration(migrationFactor)`: a nonpositive factor
is a draw-free no-op; otherwise one draw decides between 0 and 1 base
migrants (30% chance), scaled by `pow(factor/5, 1.5)` and a 2× boost
below 3 living wolves, rounded and placed. -/
def WolfMgr.processMigration (jm : JsMath) (m : WolfMgr)
    (migrationFactor : ℚ) (r : Rng) : WolfMgr × Rng :=
  if migrationFactor ≤ 0 then (m, r)
  else
    let packSizeBoost : ℚ := if m.getPopulationCount < 3 then 2 else 1
    let scaledFactor := jm.pow (migrationFactor / 5) 1.5 * packSizeBoost
    let (d, r') := randNext r
    let baseMigrants : ℕ := if d < 0.3 then 1 else 0
    let migrantCount := Int.toNat (max 0
      (jsRound ((baseMigrants : ℚ) * scaledFactor)))
    m.addMigrants jm migrantCount r'

/-- The per-wolf birth-decision pass of `WolfManager.reproduce`: each
mature wolf consumes one draw for the 20% debug-log sample and one draw
against its individual probability. -/
def wolfBirthDraws (aliveCount arrayLen : ℕ)
    (scaledReproFactor packSizeBoost : ℚ) : List Wolf → Rng → ℕ × Rng
  | [], r => (0, r)
  | wolf :: rest, r =>
    let populationDensity := (aliveCount : ℚ) / (arrayLen : ℚ)
    let individualProb :=
      0.3 * (1 - populationDensity * 0.5) * (wolf.stamina / 10) *
        scaledReproFactor * packSizeBoost
    let (_, r1) := randNext r
    let (d, r2) := randNext r1
    let (k, r3) := wolfBirthDraws aliveCount arrayLen scaledReproFactor
      packSizeBoost rest r2
    ((if d < individualProb then 1 else 0) + k, r3)

/-- The pup-placement loop of `WolfManager.reproduce`: each pup is a wolf
with age 0, mass 7, hunger 0.25, stamina 10 on a random empty slot. -/
def WolfMgr.addBirths : WolfMgr → ℕ → Rng → WolfMgr × Rng
  | m, 0, r => (m, r)
  | m, count + 1, r =>
    match m.findEmptyPosition r with
    | (none, r') => (m, r')
    | (some newPos, r') =>
      WolfMgr.addBirths
        { m with wolves := m.wolves.set newPos ⟨newPos + 1, 0, 7, 0.25, 10⟩ }
        count r'

/-- `WolfManager.reproduce(maturity, reproductionFactor)` (the
`Math.round` of the integer birth tally is the identity). -/
def WolfMgr.reproduce (jm : JsMath) (m : WolfMgr)
    (maturity reproductionFactor : ℚ) (r : Rng) : WolfMgr × Rng :=
  let scaledReproFactor := jm.pow (reproductionFactor / 5) 1.8
  let aliveWolves := m.wolves.filter Wolf.isAlive
  let matureWolves := aliveWolves.filter (fun w => decide (maturity ≤ w.age))
  let packSizeBoost : ℚ := if aliveWolves.length < 4 then 2 else 1
  let (potentialBirths, r') := wolfBirthDraws aliveWolves.length
    m.wolves.length scaledReproFactor packSizeBoost matureWolves r
  m.addBirths potentialBirths r'

/-- `WolfManager.processNaturalDeaths()`: every living wolf draws a death
age from `randGauss(10, 5)` and is killed (cause `age`) if older. -/
def WolfMgr.processNaturalDeaths (m : WolfMgr) (r : Rng) : WolfMgr × Rng :=
  (List.range m.wolves.length).foldl (fun acc index =>
    let wolf := acc.1.wolves.getD index emptyWolf
    if wolf.isAlive then
      let (deathAge, r') := randGauss 10 5 acc.2
      if deathAge < wolf.age then (acc.1.killWolf index "age", r')
      else (acc.1, r')
    else acc) (m, r)

/-- The configuration slice of `this.config` read by `simulateYear`. -/
structure SimConfig where
  treeDensity : ℚ
  treeStressIndex : ℚ
  treeMaturity : ℚ
  treeReproductionFactor : ℚ
  treeEdibleAge : ℚ
  deerMaturity : ℚ
  deerStaminaFactor : ℚ
  deerHungerFactor : ℚ
  deerReproductionFactor : ℚ
  deerMigrationFactor : ℚ
  wolfMaturity : ℚ
  wolfStaminaFactor : ℚ
  wolfHungerFactor : ℚ
  wolfReproductionFactor : ℚ
  wolfMigrationFactor : ℚ
deriving Repr, DecidableEq

/-- `x || d` on a configuration number: JavaScript falls back to the
default when the field is absent or `0`. -/
def orDefault (x d : ℚ) : ℚ := if x = 0 then d else x

/-- One per-tick statistics snapshot (`getCurrentStats()`). -/
structure Snapshot where
  year : ℕ
  trees : TreeStats
  deer : DeerStats
  wolves : WolfStats
deriving Repr, DecidableEq

/-- The mutable state of `SimulationManager` read by `simulateYear`: the
three managers, the year counter and the recorded statistics series. -/
structure SimState where
  tm : TreeMgr
  dm : DeerMgr
  wm : WolfMgr
  year : ℕ
  statsTrees : List TreeStats
  statsDeer : List DeerStats
  statsWolves : List WolfStats
deriving Repr, DecidableEq

/-- `getCurrentStats()`: assemble a snapshot; the tree statistics call
resets the tree manager's `consumedByDeer`, so the state comes back. -/
def SimState.getCurrentStats (s : SimState) : Snapshot × SimState :=
  let (ts, tm') := s.tm.getStatistics
  (⟨s.year, ts, s.dm.getStatistics, s.wm.getStatistics⟩, { s with tm := tm' })

/-- `recordStats()`: push the current snapshot onto the three series. -/
def SimState.recordStats (s : SimState) : SimState :=
  let (snap, s') := s.getCurrentStats
  { s' with statsTrees := s'.statsTrees ++ [snap.trees],
            statsDeer := s'.statsDeer ++ [snap.deer],
            statsWolves := s'.statsWolves ++ [snap.wolves] }

/-- `SimulationManager.simulateYear()` (first revision): the yearly tick.
The deer feeding phase is called as
`processFeeding(this.treeManager.trees, edibleAge)` — the raw tree array
is passed, not the manager, so removed trees bypass the consumed counter
(`useTm = false`).  Statistics are taken three times (in `recordStats`,
in `notifyEventHandlers`, and for the returned snapshot), each resetting
the tree manager's `consumedByDeer`. -/
def simulateYear (jm : JsMath) (cfg : SimConfig) (s : SimState) (r : Rng) :
    SimState × Rng × Snapshot :=
  let tm1 := s.tm.processConcurrence cfg.treeDensity
  let tm2 := tm1.grow jm
  let (tm3, r1) := tm2.processAgeDeaths r
  let (tm4, r2) := tm3.processStressDeaths jm cfg.treeStressIndex r1
  let (tm5, r3) := tm4.reproduce jm cfg.treeMaturity
    (orDefault cfg.treeReproductionFactor 1) r2
  let (dm1, r4) :=
    if s.dm.getPopulationCount < 10 then
      s.dm.processMigration jm cfg.deerMigrationFactor r3
    else
      let (d, r') := randNext r3
      if d < 0.2 then s.dm.processMigration jm (cfg.deerMigrationFactor * 0.5) r'
      else (s.dm, r')
  let (dm2, r5) := dm1.reproduce jm cfg.deerMaturity
    (orDefault cfg.deerReproductionFactor 1) r4
  let (dm3, r6) := dm2.grow jm cfg.deerStaminaFactor cfg.deerHungerFactor r5
  let (dm4, r7) := dm3.processNaturalDeaths r6
  let fo := dm4.processFeeding jm tm5 (orDefault cfg.treeEdibleAge 2) false r7
  let (wm1, r9) :=
    if s.wm.getPopulationCount < 3 then
      s.wm.processMigration jm cfg.wolfMigrationFactor fo.rng
    else
      let (d, r') := randNext fo.rng
      if d < 0.1 then s.wm.processMigration jm (cfg.wolfMigrationFactor * 0.3) r'
      else (s.wm, r')
  let (wm2, r10) := wm1.reproduce jm cfg.wolfMaturity
    (orDefault cfg.wolfReproductionFactor 1) r9
  let (wm3, r11) := wm2.grow jm cfg.wolfStaminaFactor cfg.wolfHungerFactor r10
  let (wm4, r12) := wm3.processNaturalDeaths r11
  let ho := wm4.processHunting jm fo.dm r12
  let s1 : SimState := { tm := fo.tm, dm := ho.dm, wm := ho.wm,
                         year := s.year,
                         statsTrees := s.statsTrees,
                         statsDeer := s.statsDeer,
                         statsWolves := s.statsWolves }
  let s2 := s1.recordStats
  let s3 := { s2 with year := s2.year + 1 }
  let s4 := (s3.getCurrentStats).2
  let (snap, s5) := s4.getCurrentStats
  (s5, ho.rng, snap)

/-- Run `n` consecutive ticks, producing the final state and stream (the
per-tick statistics series accumulates inside the state). -/
def runYears (jm : JsMath) (cfg : SimConfig) : ℕ → SimState → Rng → SimState × Rng
  | 0, s, r => (s, r)
  | n + 1, s, r =>
    let out := simulateYear jm cfg s r
    runYears jm cfg n out.1 out.2.1

/-- One observed tick of a run: a relation between the pre-tick
state/stream and the post-tick state/stream/snapshot.  Its single rule is
the tick body; an execution trace is a chain of `TickStep`s. -/
inductive TickStep (jm : JsMath) (cfg : SimConfig) :
    SimState × Rng → SimState × Rng × Snapshot → Prop
  | step (s : SimState) (r : Rng) :
      TickStep jm cfg (s, r) (simulateYear jm cfg s r)

/-- **C9**: determinism / replayability.  Every random decision of the
yearly tick — phase-internal draws and the migration-chance draws of the
driver alike — consumes from the single shared stream threaded through
`simulateYear` in program order, and no phase reads any other varying
input, so the tick relation is functional: two ticks observed from the
same configuration, state and RNG sequence produce identical post-states,
streams and statistics snapshots, and consequently whole runs from those
outcomes record identical per-tick statistics series. -/
theorem C9_determinism (jm : JsMath) (cfg : SimConfig)
    (x : SimState × Rng) (o₁ o₂ : SimState × Rng × Snapshot)
    (h₁ : TickStep jm cfg x o₁) (h₂ : TickStep jm cfg x o₂) :
    o₁ = o₂ ∧
    ∀ n, (runYears jm cfg n o₁.1 o₁.2.1).1.statsTrees =
           (runYears jm cfg n o₂.1 o₂.2.1).1.statsTrees ∧
         (runYears jm cfg n o₁.1 o₁.2.1).1.statsDeer =
           (runYears jm cfg n o₂.1 o₂.2.1).1.statsDeer ∧
         (runYears jm cfg n o₁.1 o₁.2.1).1.statsWolves =
           (runYears jm cfg n o₂.1 o₂.2.1).1.statsWolves := by
  cases h₁ with
  | step s r =>
    cases h₂
    exact ⟨rfl, fun n => ⟨rfl, rfl, rfl⟩⟩

/-- Concrete configuration for the C9 witness (defaults of
`validateConfig`). -/
def cfgC9 : SimConfig := ⟨15, 90, 10, 1, 2, 2, 5, 2, 1, 5, 2, 5, 1, 1, 5⟩

/-- Concrete initial state for the C9 witness. -/
def sC9 : SimState :=
  ⟨⟨[], 0, false, 0, 0, 0, 0, 0, 0⟩, ⟨[], 0, 0, 0, 0⟩, ⟨[], 0, 0, 0⟩,
   0, [], [], []⟩

theorem C9_witness :
    TickStep jmExact cfgC9 (sC9, []) (simulateYear jmExact cfgC9 sC9 []) ∧
    (simulateYear jmExact cfgC9 sC9 [] = simulateYear jmExact cfgC9 sC9 [] ∧
     ∀ n, (runYears jmExact cfgC9 n (simulateYear jmExact cfgC9 sC9 []).1
             (simulateYear jmExact cfgC9 sC9 []).2.1).1.statsTrees =
            (runYears jmExact cfgC9 n (simulateYear jmExact cfgC9 sC9 []).1
             (simulateYear jmExact cfgC9 sC9 []).2.1).1.statsTrees ∧
          (runYears jmExact cfgC9 n (simulateYear jmExact cfgC9 sC9 []).1
             (simulateYear jmExact cfgC9 sC9 []).2.1).1.statsDeer =
            (runYears jmExact cfgC9 n (simulateYear jmExact cfgC9 sC9 []).1
             (simulateYear jmExact cfgC9 sC9 []).2.1).1.statsDeer ∧
          (runYears jmExact cfgC9 n (simulateYear jmExact cfgC9 sC9 []).1
             (simulateYear jmExact cfgC9 sC9 []).2.1).1.statsWolves =
            (runYears jmExact cfgC9 n (simulateYear jmExact cfgC9 sC9 []).1
             (simulateYear jmExact cfgC9 sC9 []).2.1).1.statsWolves) :=
  ⟨TickStep.step sC9 [],
   C9_determinism jmExact cfgC9 (sC9, [])
     (simulateYear jmExact cfgC9 sC9 []) (simulateYear jmExact cfgC9 sC9 [])
     (TickStep.step sC9 []) (TickStep.step sC9 [])⟩

end EcoSim
